import Mathlib

/-!
Verification of `theano/compile/debugmode.py` against its design
specification, via a shallow embedding of the module's checking
machinery in Lean.

Conventions used throughout the embedding:
 * Python object identity is modelled by a `Nat` identifier.
 * Runtime values are modelled by `Int`; the type-supplied predicates
   `values_eq_approx` and `is_valid_value` are parameters indexed by a
   type identifier.
 * Python dictionaries keyed by object identity are modelled by
   association lists (first entry with the key wins, as for a dict).
 * A Python function that can `raise` is modelled as returning
   `Except E A`, where `E` enumerates the exceptions the modelled code
   can raise on the modelled paths.
-/

/-- Generic association-list lookup: model of `d[k]` / `d.get(k)`. -/
def alookup {κ α : Type} [DecidableEq κ] (m : List (κ × α)) (k : κ) : Option α :=
  match m with
  | [] => none
  | (k1, v) :: rest => if k1 = k then some v else alookup rest k

/-- Generic association-list insert-or-replace: model of `d[k] = v`. -/
def aset {κ α : Type} [DecidableEq κ] (m : List (κ × α)) (k : κ) (v : α) : List (κ × α) :=
  match m with
  | [] => [(k, v)]
  | (k1, v1) :: rest => if k1 = k then (k, v) :: rest else (k1, v1) :: aset rest k v

/-- Model of `d.setdefault(k, v)`. -/
def asetdefault {κ α : Type} [DecidableEq κ] (m : List (κ × α)) (k : κ) (v : α) : List (κ × α) :=
  match alookup m k with
  | some _ => m
  | none => aset m k v

/-- Model of `d.pop(k, None)` (the remaining dictionary). -/
def apop {κ α : Type} [DecidableEq κ] (m : List (κ × α)) (k : κ) : List (κ × α) :=
  match m with
  | [] => []
  | (k1, v1) :: rest => if k1 = k then rest else (k1, v1) :: apop rest k

theorem alookup_aset {κ α : Type} [DecidableEq κ] (m : List (κ × α)) (k x : κ) (v : α) :
    alookup (aset m k v) x = if k = x then some v else alookup m x := by
  induction m with
  | nil => simp [aset, alookup]
  | cons p rest ih =>
    obtain ⟨k1, v1⟩ := p
    by_cases h1 : k1 = k
    · subst h1
      by_cases h2 : k1 = x
      · subst h2; simp [aset, alookup]
      · simp [aset, alookup, h2]
    · by_cases h2 : k = x
      · subst h2
        simp [aset, alookup, h1, ih]
      · simp [aset, alookup, h1, ih, h2]

theorem alookup_append {κ α : Type} [DecidableEq κ] (m1 m2 : List (κ × α)) (x : κ) :
    alookup (m1 ++ m2) x = ((alookup m1 x).rec (alookup m2 x) fun v => some v) := by
  induction m1 with
  | nil => simp [alookup]
  | cons p rest ih =>
    obtain ⟨k1, v1⟩ := p
    by_cases h1 : k1 = x
    · simp [alookup, h1]
    · simp [alookup, h1, ih]

theorem alookup_append_left {κ α : Type} [DecidableEq κ] (m1 m2 : List (κ × α)) (x : κ) (v : α)
    (h : alookup m1 x = some v) : alookup (m1 ++ m2) x = some v := by
  rw [alookup_append, h]

theorem alookup_append_right {κ α : Type} [DecidableEq κ] (m1 m2 : List (κ × α)) (x : κ)
    (h : alookup m1 x = none) : alookup (m1 ++ m2) x = alookup m2 x := by
  rw [alookup_append, h]

/-! ### C1 — `_find_bad_optimizations0` (debugmode.py lines 382-408, 502)

A graph variable carries an identity and a type handle; reason chains
are as recorded by `_VariableEquivalenceTracker.on_change_input`. -/

/-- A `Variable`: identity plus the identifier of its `type`. -/
structure VarV where
  vid : Nat
  tyId : Nat
deriving DecidableEq

/-- One element of `reasons[new_r]`:
`(reason, r, old_graph_str, new_graph_str)`. -/
structure ReasonEntry where
  reason : String
  oldR : VarV
  oldGraph : String
  newGraph : String
deriving DecidableEq

/-- An `Apply` node as far as the bad-optimization check needs it. -/
structure NodeV where
  nid : Nat
  outputs : List VarV
deriving DecidableEq

/-- The payload of a raised `BadOptimization`. -/
structure BadOptimizationE where
  old_r : VarV
  new_r : VarV
  old_r_val : Int
  new_r_val : Int
  reason : String
  old_graph : String
  new_graph : String
deriving DecidableEq

/-- Exceptions `_find_bad_optimizations0` can raise: the
`assert r.type == new_r.type` failure, or `BadOptimization`. -/
inductive FindBadErr
  | assertTypeFail (old_r new_r : VarV)
  | badOptimization (e : BadOptimizationE)
deriving DecidableEq

/-- The inner loop of `_find_bad_optimizations0` over `reasons[new_r]`:
assert the types agree, then compare `r_vals[r]` with `r_vals[new_r]`
under `values_eq_approx` and raise `BadOptimization` on mismatch. -/
def checkReasonChain (approx : Nat → Int → Int → Bool) (r_vals : VarV → Int)
    (new_r : VarV) : List ReasonEntry → Except FindBadErr Unit
  | [] => .ok ()
  | entry :: rest =>
    if entry.oldR.tyId = new_r.tyId then
      if approx entry.oldR.tyId (r_vals entry.oldR) (r_vals new_r) then
        checkReasonChain approx r_vals new_r rest
      else
        .error (.badOptimization
          ⟨entry.oldR, new_r, r_vals entry.oldR, r_vals new_r,
           entry.reason, entry.oldGraph, entry.newGraph⟩)
    else .error (.assertTypeFail entry.oldR new_r)

/-- The loop of `_find_bad_optimizations0` over `node.outputs`. -/
def checkNodeOutputs (approx : Nat → Int → Int → Bool)
    (reasons : VarV → List ReasonEntry) (r_vals : VarV → Int) :
    List VarV → Except FindBadErr Unit
  | [] => .ok ()
  | new_r :: rest =>
    match checkReasonChain approx r_vals new_r (reasons new_r) with
    | .ok _ => checkNodeOutputs approx reasons r_vals rest
    | .error e => .error e

/-- `_find_bad_optimizations0(order, reasons, r_vals)`: iterate over the
evaluation order, over each node's outputs, over each output's reason
chain. -/
def find_bad_optimizations0 (approx : Nat → Int → Int → Bool)
    (order : List NodeV) (reasons : VarV → List ReasonEntry) (r_vals : VarV → Int) :
    Except FindBadErr Unit :=
  match order with
  | [] => .ok ()
  | node :: rest =>
    match checkNodeOutputs approx reasons r_vals node.outputs with
    | .ok _ => find_bad_optimizations0 approx rest reasons r_vals
    | .error e => .error e

/-- `_find_bad_optimizations = _find_bad_optimizations0` (line 502): the
simple pairwise variant is the selected one. -/
def find_bad_optimizations := @find_bad_optimizations0

theorem checkReasonChain_ok (approx : Nat → Int → Int → Bool) (r_vals : VarV → Int)
    (new_r : VarV) (chain : List ReasonEntry)
    (hty : ∀ e ∈ chain, e.oldR.tyId = new_r.tyId)
    (hap : ∀ e ∈ chain, approx e.oldR.tyId (r_vals e.oldR) (r_vals new_r) = true) :
    checkReasonChain approx r_vals new_r chain = .ok () := by
  induction chain with
  | nil => rfl
  | cons entry rest ih =>
    have h1 := hty entry (by simp)
    have h2 := hap entry (by simp)
    simp only [checkReasonChain]
    rw [if_pos h1, if_pos h2]
    exact ih (fun x hx => hty x (by simp [hx])) (fun x hx => hap x (by simp [hx]))

theorem checkReasonChain_err (approx : Nat → Int → Int → Bool) (r_vals : VarV → Int)
    (new_r : VarV) (chain : List ReasonEntry)
    (hty : ∀ e ∈ chain, e.oldR.tyId = new_r.tyId)
    (hex : ∃ e ∈ chain, approx e.oldR.tyId (r_vals e.oldR) (r_vals new_r) = false) :
    ∃ e ∈ chain, approx e.oldR.tyId (r_vals e.oldR) (r_vals new_r) = false ∧
      checkReasonChain approx r_vals new_r chain = .error (.badOptimization
        ⟨e.oldR, new_r, r_vals e.oldR, r_vals new_r, e.reason, e.oldGraph, e.newGraph⟩) := by
  induction chain with
  | nil => obtain ⟨e, he, _⟩ := hex; cases he
  | cons entry rest ih =>
    have h1 := hty entry (by simp)
    by_cases h2 : approx entry.oldR.tyId (r_vals entry.oldR) (r_vals new_r) = true
    · have hrest : ∃ e ∈ rest, approx e.oldR.tyId (r_vals e.oldR) (r_vals new_r) = false := by
        obtain ⟨e, he, hf⟩ := hex
        rcases List.mem_cons.mp he with h | h
        · subst h; rw [h2] at hf; cases hf
        · exact ⟨e, h, hf⟩
      obtain ⟨e, he, hf, hres⟩ :=
        ih (fun x hx => hty x (by simp [hx])) hrest
      refine ⟨e, by simp [he], hf, ?_⟩
      simp only [checkReasonChain]
      rw [if_pos h1, if_pos h2]
      exact hres
    · have h2f : approx entry.oldR.tyId (r_vals entry.oldR) (r_vals new_r) = false :=
        Bool.eq_false_iff.mpr h2
      refine ⟨entry, by simp, h2f, ?_⟩
      simp only [checkReasonChain]
      rw [if_pos h1, if_neg h2]

theorem checkNodeOutputs_ok (approx : Nat → Int → Int → Bool)
    (reasons : VarV → List ReasonEntry) (r_vals : VarV → Int) (outs : List VarV)
    (hty : ∀ new_r ∈ outs, ∀ e ∈ reasons new_r, e.oldR.tyId = new_r.tyId)
    (hap : ∀ new_r ∈ outs, ∀ e ∈ reasons new_r,
      approx e.oldR.tyId (r_vals e.oldR) (r_vals new_r) = true) :
    checkNodeOutputs approx reasons r_vals outs = .ok () := by
  induction outs with
  | nil => rfl
  | cons new_r rest ih =>
    have h1 := checkReasonChain_ok approx r_vals new_r (reasons new_r)
      (hty new_r (by simp)) (hap new_r (by simp))
    simp only [checkNodeOutputs, h1]
    exact ih (fun x hx => hty x (by simp [hx])) (fun x hx => hap x (by simp [hx]))

theorem checkNodeOutputs_err (approx : Nat → Int → Int → Bool)
    (reasons : VarV → List ReasonEntry) (r_vals : VarV → Int) (outs : List VarV)
    (hty : ∀ new_r ∈ outs, ∀ e ∈ reasons new_r, e.oldR.tyId = new_r.tyId)
    (hex : ∃ new_r ∈ outs, ∃ e ∈ reasons new_r,
      approx e.oldR.tyId (r_vals e.oldR) (r_vals new_r) = false) :
    ∃ new_r ∈ outs, ∃ e ∈ reasons new_r,
      approx e.oldR.tyId (r_vals e.oldR) (r_vals new_r) = false ∧
      checkNodeOutputs approx reasons r_vals outs = .error (.badOptimization
        ⟨e.oldR, new_r, r_vals e.oldR, r_vals new_r, e.reason, e.oldGraph, e.newGraph⟩) := by
  induction outs with
  | nil => obtain ⟨x, hx, _⟩ := hex; cases hx
  | cons new_r rest ih =>
    by_cases hall : ∀ e ∈ reasons new_r,
        approx e.oldR.tyId (r_vals e.oldR) (r_vals new_r) = true
    · have h1 := checkReasonChain_ok approx r_vals new_r (reasons new_r)
        (hty new_r (by simp)) hall
      have hrest : ∃ x ∈ rest, ∃ e ∈ reasons x,
          approx e.oldR.tyId (r_vals e.oldR) (r_vals x) = false := by
        obtain ⟨x, hx, e, he, hf⟩ := hex
        rcases List.mem_cons.mp hx with h | h
        · subst h; rw [hall e he] at hf; cases hf
        · exact ⟨x, h, e, he, hf⟩
      obtain ⟨x, hx, e, he, hf, hres⟩ :=
        ih (fun y hy => hty y (by simp [hy])) hrest
      refine ⟨x, by simp [hx], e, he, hf, ?_⟩
      simp only [checkNodeOutputs, h1]
      exact hres
    · push_neg at hall
      obtain ⟨e, he, hne⟩ := hall
      have hchain : ∃ e ∈ reasons new_r,
          approx e.oldR.tyId (r_vals e.oldR) (r_vals new_r) = false :=
        ⟨e, he, Bool.eq_false_iff.mpr hne⟩
      obtain ⟨e1, he1, hf1, hres1⟩ := checkReasonChain_err approx r_vals new_r
        (reasons new_r) (hty new_r (by simp)) hchain
      refine ⟨new_r, by simp, e1, he1, hf1, ?_⟩
      simp only [checkNodeOutputs, hres1]

theorem find_bad_optimizations0_ok (approx : Nat → Int → Int → Bool)
    (order : List NodeV) (reasons : VarV → List ReasonEntry) (r_vals : VarV → Int)
    (hty : ∀ node ∈ order, ∀ new_r ∈ node.outputs, ∀ e ∈ reasons new_r,
      e.oldR.tyId = new_r.tyId)
    (hap : ∀ node ∈ order, ∀ new_r ∈ node.outputs, ∀ e ∈ reasons new_r,
      approx e.oldR.tyId (r_vals e.oldR) (r_vals new_r) = true) :
    find_bad_optimizations0 approx order reasons r_vals = .ok () := by
  induction order with
  | nil => rfl
  | cons node rest ih =>
    have h1 := checkNodeOutputs_ok approx reasons r_vals node.outputs
      (hty node (by simp)) (hap node (by simp))
    simp only [find_bad_optimizations0, h1]
    exact ih (fun x hx => hty x (by simp [hx])) (fun x hx => hap x (by simp [hx]))

theorem find_bad_optimizations0_err (approx : Nat → Int → Int → Bool)
    (order : List NodeV) (reasons : VarV → List ReasonEntry) (r_vals : VarV → Int)
    (hty : ∀ node ∈ order, ∀ new_r ∈ node.outputs, ∀ e ∈ reasons new_r,
      e.oldR.tyId = new_r.tyId)
    (hex : ∃ node ∈ order, ∃ new_r ∈ node.outputs, ∃ e ∈ reasons new_r,
      approx e.oldR.tyId (r_vals e.oldR) (r_vals new_r) = false) :
    ∃ node ∈ order, ∃ new_r ∈ node.outputs, ∃ e ∈ reasons new_r,
      approx e.oldR.tyId (r_vals e.oldR) (r_vals new_r) = false ∧
      find_bad_optimizations0 approx order reasons r_vals = .error (.badOptimization
        ⟨e.oldR, new_r, r_vals e.oldR, r_vals new_r, e.reason, e.oldGraph, e.newGraph⟩) := by
  induction order with
  | nil => obtain ⟨x, hx, _⟩ := hex; cases hx
  | cons node rest ih =>
    by_cases hall : ∀ new_r ∈ node.outputs, ∀ e ∈ reasons new_r,
        approx e.oldR.tyId (r_vals e.oldR) (r_vals new_r) = true
    · have h1 := checkNodeOutputs_ok approx reasons r_vals node.outputs
        (hty node (by simp)) hall
      have hrest : ∃ x ∈ rest, ∃ new_r ∈ x.outputs, ∃ e ∈ reasons new_r,
          approx e.oldR.tyId (r_vals e.oldR) (r_vals new_r) = false := by
        obtain ⟨x, hx, new_r, hn, e, he, hf⟩ := hex
        rcases List.mem_cons.mp hx with h | h
        · subst h; rw [hall new_r hn e he] at hf; cases hf
        · exact ⟨x, h, new_r, hn, e, he, hf⟩
      obtain ⟨x, hx, new_r, hn, e, he, hf, hres⟩ :=
        ih (fun y hy => hty y (by simp [hy])) hrest
      refine ⟨x, by simp [hx], new_r, hn, e, he, hf, ?_⟩
      simp only [find_bad_optimizations0, h1]
      exact hres
    · push_neg at hall
      obtain ⟨new_r, hn, e, he, hne⟩ := hall
      obtain ⟨new_r1, hn1, e1, he1, hf1, hres1⟩ := checkNodeOutputs_err approx reasons
        r_vals node.outputs (hty node (by simp))
        ⟨new_r, hn, e, he, Bool.eq_false_iff.mpr hne⟩
      refine ⟨node, by simp, new_r1, hn1, e1, he1, hf1, ?_⟩
      simp only [find_bad_optimizations0, hres1]

/-- C1: after the evaluation loop, the selected simple pairwise variant
`_find_bad_optimizations0` is run.  Provided the recorded replacement
pairs are type-consistent (which the function itself asserts), then:
if every `(old_r, new_r)` pair from a reason chain of a node output in
the order satisfies `values_eq_approx`, no exception is raised; and if
some pair fails `values_eq_approx`, the run raises `BadOptimization`
carrying that pair's `old_r`, `new_r`, both runtime values, the reason
and the two subgraph strings rendered at rewrite time. -/
theorem C1_find_bad_optimizations_spec (approx : Nat → Int → Int → Bool)
    (order : List NodeV) (reasons : VarV → List ReasonEntry) (r_vals : VarV → Int)
    (hty : ∀ node ∈ order, ∀ new_r ∈ node.outputs, ∀ e ∈ reasons new_r,
      e.oldR.tyId = new_r.tyId) :
    ((∀ node ∈ order, ∀ new_r ∈ node.outputs, ∀ e ∈ reasons new_r,
        approx e.oldR.tyId (r_vals e.oldR) (r_vals new_r) = true) →
      find_bad_optimizations approx order reasons r_vals = .ok ()) ∧
    ((∃ node ∈ order, ∃ new_r ∈ node.outputs, ∃ e ∈ reasons new_r,
        approx e.oldR.tyId (r_vals e.oldR) (r_vals new_r) = false) →
      ∃ node ∈ order, ∃ new_r ∈ node.outputs, ∃ e ∈ reasons new_r,
        approx e.oldR.tyId (r_vals e.oldR) (r_vals new_r) = false ∧
        find_bad_optimizations approx order reasons r_vals = .error (.badOptimization
          ⟨e.oldR, new_r, r_vals e.oldR, r_vals new_r,
           e.reason, e.oldGraph, e.newGraph⟩)) := by
  constructor
  · intro hap
    exact find_bad_optimizations0_ok approx order reasons r_vals hty hap
  · intro hex
    exact find_bad_optimizations0_err approx order reasons r_vals hty hex

/-- Witness for C1 at a concrete graph: one node, one output of type 0,
one reason-chain entry whose replaced variable has the same value. -/
theorem C1_find_bad_optimizations_spec_witness :
    (∀ node ∈ [NodeV.mk 0 [⟨1, 0⟩]], ∀ new_r ∈ node.outputs,
      ∀ e ∈ (fun _ : VarV => [ReasonEntry.mk "opt" ⟨0, 0⟩ "og" "ng"]) new_r,
        e.oldR.tyId = new_r.tyId) ∧
    find_bad_optimizations (fun _ x y => x == y) [NodeV.mk 0 [⟨1, 0⟩]]
      (fun _ => [ReasonEntry.mk "opt" ⟨0, 0⟩ "og" "ng"]) (fun _ => 5) = .ok () := by
  refine ⟨by decide, ?_⟩
  exact (C1_find_bad_optimizations_spec (fun _ x y => x == y) [NodeV.mk 0 [⟨1, 0⟩]]
    (fun _ => [ReasonEntry.mk "opt" ⟨0, 0⟩ "og" "ng"]) (fun _ => 5) (by decide)).1
    (by decide)

/-! ### C2, C3 — `_EnvEvent.__eq__` (lines 546-553) and the
`_Maker.__init__` stability loop (lines 981-1010) -/

/-- `_EnvEvent`: kind, the node (modelled by its identity and its number
of inputs; `op = "output"` encodes the pseudo-node `'output'`), the
operator handle, the optional input index and the optional reason
string. -/
structure EnvEvent where
  kind : String
  nodeId : Nat
  nodeNumInputs : Nat
  op : String
  idx : Option Nat
  reason : Option String
deriving DecidableEq

/-- `_EnvEvent.__eq__`: compare `kind`, `op`, `idx`, `reason`; the node
itself is deliberately not compared. -/
def eventEq (e1 e2 : EnvEvent) : Bool :=
  e1.kind == e2.kind && e1.op == e2.op && e1.idx == e2.idx && e1.reason == e2.reason

def optNatStr : Option Nat → String
  | some n => toString n
  | none => "None"

/-- `_EnvEvent.__str__`: a change event renders as the join of
`change`, the reason, the op, the index, and the input count (empty for
the `'output'` pseudo-node); other events render their whole record
(which includes the node identity). -/
def eventStr (e : EnvEvent) : String :=
  if e.kind = "change" then
    String.intercalate " " ["change", e.reason.getD "None", e.op, optNatStr e.idx,
      if e.op = "output" then "" else toString e.nodeNumInputs]
  else
    String.intercalate " " [e.kind, toString e.nodeId, e.op, optNatStr e.idx,
      e.reason.getD "None"]

/-- Python list equality `li == l0` over events: same length and
element-wise `_EnvEvent.__eq__`. -/
def eventListEq : List EnvEvent → List EnvEvent → Bool
  | [], [] => true
  | a :: as1, b :: bs1 => eventEq a b && eventListEq as1 bs1
  | _, _ => false

/-- The per-index mismatch test of the diagnostic loop:
`j >= len(li) or j >= len(l0) or li[j] != l0[j]`. -/
def mismatchAt (li l0 : List EnvEvent) (j : Nat) : Bool :=
  match li.get? j, l0.get? j with
  | some a, some b => !eventEq a b
  | _, _ => true

/-- `str(li[j]) if j < len(li) else '-'`. -/
def strOrDash (l : List EnvEvent) (j : Nat) : String :=
  match l.get? j with
  | some e => eventStr e
  | none => "-"

/-- The body of the diagnostic loop of `_Maker.__init__`: one line
`(index, one event trace, other event trace)` per differing index. -/
def diffLinesGo (li l0 : List EnvEvent) : Nat → Nat → List (Nat × String × String)
  | _, 0 => []
  | j, fuel + 1 =>
    (if mismatchAt li l0 j then [(j, strOrDash li j, strOrDash l0 j)] else [])
      ++ diffLinesGo li l0 (j + 1) fuel

/-- The diagnostic lines printed before raising `StochasticOrder`:
`for j in xrange(max(len(li), len(l0)))`, keep the differing indices. -/
def diffLines (li l0 : List EnvEvent) : List (Nat × String × String) :=
  diffLinesGo li l0 0 (max li.length l0.length)

/-- The payload of a raised `StochasticOrder` (its diagnostic lines). -/
structure StochasticOrderE where
  lines : List (Nat × String × String)
deriving DecidableEq

/-- Exceptions of the `_Maker.__init__` stability loop.  `nameError`
models the `NameError` Python would raise after a zero-iteration loop
(`env` unbound); it cannot occur for `stability_patience >= 1`. -/
inductive MakerErr
  | stochastic (d : StochasticOrderE)
  | nameError
deriving DecidableEq

/-- Iterations `i = 1, ..., stability_patience - 1` of the loop in
`_Maker.__init__`: each run's event list is compared with the first
run's; on inequality `StochasticOrder` is raised with the diagnostic
lines; `cur` is the env produced by the most recent iteration. -/
def makerLoopGo (envOf : Nat → Nat) (runs : Nat → List EnvEvent) (l0 : List EnvEvent) :
    Nat → Nat → Nat → Except MakerErr Nat
  | cur, _, 0 => .ok cur
  | _, i, fuel + 1 =>
    if eventListEq (runs i) l0 then makerLoopGo envOf runs l0 (envOf i) (i + 1) fuel
    else .error (.stochastic ⟨diffLines (runs i) l0⟩)

/-- The optimisation-stability loop of `_Maker.__init__`: run the
optimizer on `stability_patience` fresh clones (`envOf i` is the env
object produced by run `i`, `runs i` its recorded event list); compare
each later run's event list with run 0's; on success the env left bound
after the loop — the env of the *last* iteration — is kept. -/
def makerLoop (stability_patience : Nat) (envOf : Nat → Nat)
    (runs : Nat → List EnvEvent) : Except MakerErr Nat :=
  match stability_patience with
  | 0 => .error .nameError
  | p + 1 => makerLoopGo envOf runs (runs 0) (envOf 0) 1 p

theorem eventEq_refl (e : EnvEvent) : eventEq e e = true := by
  simp [eventEq]

theorem eventListEq_refl (l : List EnvEvent) : eventListEq l l = true := by
  induction l with
  | nil => rfl
  | cons a t ih => simp [eventListEq, eventEq_refl, ih]

/-- A false list comparison exhibits a first mismatching index, and it
is below `max` of the lengths. -/
theorem eventListEq_false_first_mismatch (li l0 : List EnvEvent)
    (h : eventListEq li l0 = false) :
    ∃ j, j < max li.length l0.length ∧ mismatchAt li l0 j = true ∧
      ∀ t, t < j → mismatchAt li l0 t = false := by
  induction li generalizing l0 with
  | nil =>
    cases l0 with
    | nil => simp [eventListEq] at h
    | cons b bs =>
      exact ⟨0, by simp, by simp [mismatchAt], fun t ht => absurd ht (Nat.not_lt_zero t)⟩
  | cons a as1 ih =>
    cases l0 with
    | nil =>
      exact ⟨0, by simp, by simp [mismatchAt], fun t ht => absurd ht (Nat.not_lt_zero t)⟩
    | cons b bs =>
      by_cases hab : eventEq a b = true
      · have htail : eventListEq as1 bs = false := by
          simp [eventListEq, hab] at h
          exact h
        obtain ⟨j, hj, hm, hmin⟩ := ih bs htail
        refine ⟨j + 1, ?_, ?_, ?_⟩
        · simp only [List.length_cons]
          omega
        · simpa [mismatchAt] using hm
        · intro t ht
          cases t with
          | zero => simp [mismatchAt, hab]
          | succ t1 =>
            have := hmin t1 (by omega)
            simpa [mismatchAt] using this
      · refine ⟨0, by simp, ?_, fun t ht => absurd ht (Nat.not_lt_zero t)⟩
        simp [mismatchAt, hab]

/-- The head of the diagnostic-line list is the first mismatching index
(with the two rendered event strings). -/
theorem diffLinesGo_head (li l0 : List EnvEvent) (fuel j0 j : Nat)
    (hle : j0 ≤ j) (hlt : j < j0 + fuel) (hm : mismatchAt li l0 j = true)
    (hmin : ∀ t, j0 ≤ t → t < j → mismatchAt li l0 t = false) :
    ∃ j1, (diffLinesGo li l0 j0 fuel).head? =
        some (j1, strOrDash li j1, strOrDash l0 j1) ∧
      mismatchAt li l0 j1 = true ∧ j0 ≤ j1 ∧
      ∀ t, j0 ≤ t → t < j1 → mismatchAt li l0 t = false := by
  induction fuel generalizing j0 with
  | zero => omega
  | succ fuel ih =>
    by_cases h0 : mismatchAt li l0 j0 = true
    · refine ⟨j0, ?_, h0, Nat.le_refl j0, fun t ht1 ht2 => absurd ht2 (by omega)⟩
      simp [diffLinesGo, h0]
    · have hj0 : mismatchAt li l0 j0 = false := Bool.eq_false_iff.mpr h0
      have hne : j0 ≠ j := by
        intro hcontra
        rw [hcontra] at hj0
        rw [hj0] at hm
        cases hm
      obtain ⟨j1, hh, hm1, hle1, hmin1⟩ := ih (j0 + 1) (by omega) (by omega)
        (fun t ht1 ht2 => hmin t (by omega) ht2)
      refine ⟨j1, ?_, hm1, by omega, ?_⟩
      · simp [diffLinesGo, hj0]
        exact hh
      · intro t ht1 ht2
        cases Nat.eq_or_lt_of_le ht1 with
        | inl heq => rw [← heq]; exact hj0
        | inr hlt1 => exact hmin1 t (by omega) ht2

theorem makerLoopGo_ok_of_stable (envOf : Nat → Nat) (runs : Nat → List EnvEvent)
    (l0 : List EnvEvent) (fuel : Nat) :
    ∀ i cur, (∀ k, k < fuel → eventListEq (runs (i + k)) l0 = true) →
      makerLoopGo envOf runs l0 cur i fuel =
        .ok (if fuel = 0 then cur else envOf (i + fuel - 1)) := by
  induction fuel with
  | zero => intro i cur _; rfl
  | succ fuel ih =>
    intro i cur hall
    have h0 : eventListEq (runs i) l0 = true := by
      have := hall 0 (by omega)
      simpa using this
    simp only [makerLoopGo, h0, if_true]
    rw [ih (i + 1) (envOf i) (fun k hk => by
      have := hall (k + 1) (by omega)
      rwa [show i + (k + 1) = i + 1 + k by omega] at this)]
    cases fuel with
    | zero => simp
    | succ f => simp only [if_neg (Nat.succ_ne_zero f), if_neg (Nat.succ_ne_zero (f + 1))]
                congr 2
                omega

theorem makerLoopGo_ok_elim (envOf : Nat → Nat) (runs : Nat → List EnvEvent)
    (l0 : List EnvEvent) (fuel : Nat) :
    ∀ i cur v, makerLoopGo envOf runs l0 cur i fuel = .ok v →
      ∀ k, k < fuel → eventListEq (runs (i + k)) l0 = true := by
  induction fuel with
  | zero => intro i cur v _ k hk; omega
  | succ fuel ih =>
    intro i cur v hres k hk
    by_cases h0 : eventListEq (runs i) l0 = true
    · simp only [makerLoopGo, h0, if_true] at hres
      cases k with
      | zero => simpa using h0
      | succ k1 =>
        have := ih (i + 1) (envOf i) v hres k1 (by omega)
        rwa [show i + 1 + k1 = i + (k1 + 1) by omega] at this
    · simp only [makerLoopGo, h0, if_false] at hres
      cases hres

theorem makerLoopGo_error_elim (envOf : Nat → Nat) (runs : Nat → List EnvEvent)
    (l0 : List EnvEvent) (fuel : Nat) :
    ∀ i cur e, makerLoopGo envOf runs l0 cur i fuel = .error e →
      ∃ k, k < fuel ∧ eventListEq (runs (i + k)) l0 = false ∧
        e = .stochastic ⟨diffLines (runs (i + k)) l0⟩ := by
  induction fuel with
  | zero => intro i cur e hres; cases hres
  | succ fuel ih =>
    intro i cur e hres
    by_cases h0 : eventListEq (runs i) l0 = true
    · simp only [makerLoopGo, h0, if_true] at hres
      obtain ⟨k, hk, hne, he⟩ := ih (i + 1) (envOf i) e hres
      exact ⟨k + 1, by omega, by rwa [show i + (k + 1) = i + 1 + k by omega], by
        rwa [show i + (k + 1) = i + 1 + k by omega]⟩
    · simp only [makerLoopGo, h0, if_false] at hres
      refine ⟨0, by omega, by simpa using Bool.eq_false_iff.mpr h0, ?_⟩
      cases hres
      simp

/-- C2: the optimizer is run `stability_patience` times; event logs are
compared element-wise with run 0's log under `_EnvEvent.__eq__`, which
compares kind, operator handle, input index and reason string and
ignores node identity; when all logs compare equal no `StochasticOrder`
is raised, and when some later run differs, `StochasticOrder` is raised
with a diagnostic whose first line holds the first differing index and
the two rendered event strings at that index. -/
theorem C2_stability_check_spec (stability_patience : Nat) (envOf : Nat → Nat)
    (runs : Nat → List EnvEvent) (hp : 1 ≤ stability_patience) :
    (∀ e1 e2 : EnvEvent, eventEq e1 e2 = true ↔
      (e1.kind = e2.kind ∧ e1.op = e2.op ∧ e1.idx = e2.idx ∧ e1.reason = e2.reason)) ∧
    ((∀ i, i < stability_patience → eventListEq (runs i) (runs 0) = true) ↔
      (∃ v, makerLoop stability_patience envOf runs = .ok v)) ∧
    (∀ d, makerLoop stability_patience envOf runs = .error (.stochastic d) →
      ∃ i, 0 < i ∧ i < stability_patience ∧ eventListEq (runs i) (runs 0) = false ∧
        ∃ j, d.lines.head? = some (j, strOrDash (runs i) j, strOrDash (runs 0) j) ∧
          mismatchAt (runs i) (runs 0) j = true ∧
          ∀ t, t < j → mismatchAt (runs i) (runs 0) t = false) := by
  obtain ⟨p, rfl⟩ : ∃ p, stability_patience = p + 1 :=
    ⟨stability_patience - 1, by omega⟩
  refine ⟨?_, ⟨?_, ?_⟩, ?_⟩
  · intro e1 e2
    simp [eventEq, Bool.and_eq_true, beq_iff_eq, and_assoc]
  · intro hall
    rw [show makerLoop (p + 1) envOf runs = makerLoopGo envOf runs (runs 0) (envOf 0) 1 p
      from rfl]
    rw [makerLoopGo_ok_of_stable envOf runs (runs 0) p 1 (envOf 0)
      (fun k hk => hall (1 + k) (by omega))]
    exact ⟨_, rfl⟩
  · rintro ⟨v, hv⟩ i hi
    cases i with
    | zero => exact eventListEq_refl (runs 0)
    | succ i1 =>
      have := makerLoopGo_ok_elim envOf runs (runs 0) p 1 (envOf 0) v hv i1 (by omega)
      rwa [show 1 + i1 = i1 + 1 by omega] at this
  · intro d hd
    have hd1 : makerLoopGo envOf runs (runs 0) (envOf 0) 1 p =
        .error (.stochastic d) := hd
    obtain ⟨k, hk, hne, he⟩ := makerLoopGo_error_elim envOf runs (runs 0) p 1 (envOf 0)
      (.stochastic d) hd1
    have hdl : d = StochasticOrderE.mk (diffLines (runs (1 + k)) (runs 0)) :=
      MakerErr.stochastic.inj he
    obtain ⟨j, hj, hm, hmin⟩ :=
      eventListEq_false_first_mismatch (runs (1 + k)) (runs 0) hne
    obtain ⟨j1, hh, hm1, _, hmin1⟩ := diffLinesGo_head (runs (1 + k)) (runs 0)
      (max (runs (1 + k)).length (runs 0).length) 0 j (by omega) (by omega) hm
      (fun t _ ht2 => hmin t ht2)
    refine ⟨1 + k, by omega, by omega, hne, j1, ?_, hm1,
      fun t ht => hmin1 t (by omega) ht⟩
    rw [hdl]
    exact hh

/-- Witness for C2: two runs with identical (empty) event logs, loop
succeeds (no `StochasticOrder`). -/
theorem C2_stability_check_spec_witness :
    (1 ≤ 2) ∧ (∃ v, makerLoop 2 (fun i => i) (fun _ => []) = .ok v) := by
  refine ⟨by omega, ?_⟩
  exact ((C2_stability_check_spec 2 (fun i => i) (fun _ => []) (by omega)).2.1).mp
    (fun i _ => eventListEq_refl [])

/-- Counterexample to C3 as stated: with `stability_patience = 2` and
stable (empty) event logs, the env kept after the loop is the one
produced by the *last* run (`envOf 1 = 1`), not the first run's env
(`envOf 0 = 0`): `_Maker.__init__` executes `del env0; self.env = env`. -/
theorem C3_kept_graph_cex :
    makerLoop 2 (fun i => i) (fun _ => []) = .ok 1 ∧
    makerLoop 2 (fun i => i) (fun _ => []) ≠ .ok 0 := by
  constructor
  · rfl
  · intro h
    rw [show makerLoop 2 (fun i => i) (fun _ => []) = .ok 1 from rfl] at h
    injection h with h1
    cases h1

/-- C3 (amended): when all `stability_patience` runs produce equal event
logs, the graph kept and handed to the linker is the one produced by the
last optimizer run, `envOf (stability_patience - 1)` (which coincides
with the first run's graph only when `stability_patience = 1`). -/
theorem C3_kept_graph_is_last_run (stability_patience : Nat) (envOf : Nat → Nat)
    (runs : Nat → List EnvEvent) (hp : 1 ≤ stability_patience)
    (hstable : ∀ i, i < stability_patience → eventListEq (runs i) (runs 0) = true) :
    makerLoop stability_patience envOf runs = .ok (envOf (stability_patience - 1)) := by
  obtain ⟨p, rfl⟩ : ∃ p, stability_patience = p + 1 :=
    ⟨stability_patience - 1, by omega⟩
  rw [show makerLoop (p + 1) envOf runs = makerLoopGo envOf runs (runs 0) (envOf 0) 1 p
    from rfl]
  rw [makerLoopGo_ok_of_stable envOf runs (runs 0) p 1 (envOf 0)
    (fun k hk => hstable (1 + k) (by omega))]
  cases p with
  | zero => simp
  | succ p1 =>
    simp only [if_neg (Nat.succ_ne_zero p1)]
    congr 2
    omega

/-- Witness for the amended C3 at `stability_patience = 2`. -/
theorem C3_kept_graph_is_last_run_witness :
    (1 ≤ 2) ∧ makerLoop 2 (fun i => i + 10) (fun _ => []) = .ok 11 := by
  refine ⟨by omega, ?_⟩
  exact C3_kept_graph_is_last_run 2 (fun i => i + 10) (fun _ => [])
    (by omega) (fun i _ => eventListEq_refl [])

/-! ### C4 — compiled-thunk output checking in `_Linker.make_all`
(lines 830-875): the reference (`thunk_py`) pass moves outputs into
`r_vals`; the compiled (`thunk_c`) pass compares its outputs against
`r_vals` and never overwrites an existing entry. -/

/-- Exceptions of the per-node output-processing code: `InvalidValueError`
(line 842/865), the `assert r not in r_vals` (line 845), and
`BadCLinkerOutput` (line 871). -/
inductive OutputErr
  | invalidValue (r : VarV) (v : Int)
  | assertHasValue (r : VarV)
  | badCLinkerOutput (r : VarV) (val_py val_c : Int)
deriving DecidableEq

/-- Lines 840-847: after `thunk_py` runs, validate each output cell,
assert it is not yet in `r_vals`, and move it into `r_vals`
(`stPy r` is the storage cell of output `r` after the reference thunk). -/
def processPyNodeOutputs (isValid : Nat → Int → Bool) (stPy : VarV → Int) :
    List VarV → List (VarV × Int) → Except OutputErr (List (VarV × Int))
  | [], r_vals => .ok r_vals
  | r :: rest, r_vals =>
    if isValid r.tyId (stPy r) then
      match alookup r_vals r with
      | some _ => .error (.assertHasValue r)
      | none => processPyNodeOutputs isValid stPy rest (r_vals ++ [(r, stPy r)])
    else .error (.invalidValue r (stPy r))

/-- Lines 862-875: after `thunk_c` runs, validate each output cell; if
the output already has an entry in `r_vals` (the reference backend ran),
compare the two under `values_eq_approx` and raise `BadCLinkerOutput` on
mismatch, leaving `r_vals` unchanged; otherwise move the compiled value
into `r_vals`. -/
def processCNodeOutputs (isValid : Nat → Int → Bool) (approx : Nat → Int → Int → Bool)
    (stC : VarV → Int) :
    List VarV → List (VarV × Int) → Except OutputErr (List (VarV × Int))
  | [], r_vals => .ok r_vals
  | r :: rest, r_vals =>
    if isValid r.tyId (stC r) then
      match alookup r_vals r with
      | some val_py =>
        if approx r.tyId val_py (stC r) then
          processCNodeOutputs isValid approx stC rest r_vals
        else .error (.badCLinkerOutput r val_py (stC r))
      | none => processCNodeOutputs isValid approx stC rest (r_vals ++ [(r, stC r)])
    else .error (.invalidValue r (stC r))

theorem processPyNodeOutputs_ok (isValid : Nat → Int → Bool) (stPy : VarV → Int)
    (outs : List VarV) :
    ∀ rv rv1, processPyNodeOutputs isValid stPy outs rv = .ok rv1 →
      (∀ x v, alookup rv x = some v → alookup rv1 x = some v) ∧
      (∀ r ∈ outs, alookup rv1 r = some (stPy r)) := by
  induction outs with
  | nil =>
    intro rv rv1 h
    simp only [processPyNodeOutputs] at h
    injection h with h1
    subst h1
    exact ⟨fun x v hv => hv, fun r hr => absurd hr (List.not_mem_nil r)⟩
  | cons r rest ih =>
    intro rv rv1 h
    by_cases hv : isValid r.tyId (stPy r) = true
    · simp only [processPyNodeOutputs] at h
      rw [if_pos hv] at h
      cases hl : alookup rv r with
      | some w => rw [hl] at h; cases h
      | none =>
        rw [hl] at h
        obtain ⟨hpres, hall⟩ := ih (rv ++ [(r, stPy r)]) rv1 h
        constructor
        · intro x v hx
          exact hpres x v (alookup_append_left rv [(r, stPy r)] x v hx)
        · intro y hy
          rcases List.mem_cons.mp hy with h1 | h1
          · subst h1
            refine hpres y (stPy y) ?_
            rw [alookup_append_right rv [(y, stPy y)] y hl]
            simp [alookup]
          · exact hall y h1
    · simp only [processPyNodeOutputs] at h
      rw [if_neg hv] at h
      cases h

theorem processCNodeOutputs_ok_of_all (isValid : Nat → Int → Bool)
    (approx : Nat → Int → Int → Bool) (stC : VarV → Int) (pyOf : VarV → Int)
    (outs : List VarV) :
    ∀ rv, (∀ r ∈ outs, alookup rv r = some (pyOf r)) →
      (∀ r ∈ outs, isValid r.tyId (stC r) = true) →
      (∀ r ∈ outs, approx r.tyId (pyOf r) (stC r) = true) →
      processCNodeOutputs isValid approx stC outs rv = .ok rv := by
  induction outs with
  | nil => intro rv _ _ _; rfl
  | cons r rest ih =>
    intro rv hall hvalid happ
    have h1 := hall r (by simp)
    have h2 := hvalid r (by simp)
    have h3 := happ r (by simp)
    simp only [processCNodeOutputs]
    rw [if_pos h2, h1]
    simp only [if_pos h3]
    exact ih rv (fun x hx => hall x (by simp [hx])) (fun x hx => hvalid x (by simp [hx]))
      (fun x hx => happ x (by simp [hx]))

theorem processCNodeOutputs_ok_elim (isValid : Nat → Int → Bool)
    (approx : Nat → Int → Int → Bool) (stC : VarV → Int) (pyOf : VarV → Int)
    (outs : List VarV) :
    ∀ rv rv2, (∀ r ∈ outs, alookup rv r = some (pyOf r)) →
      processCNodeOutputs isValid approx stC outs rv = .ok rv2 →
      rv2 = rv ∧ ∀ r ∈ outs, approx r.tyId (pyOf r) (stC r) = true := by
  induction outs with
  | nil =>
    intro rv rv2 _ h
    simp only [processCNodeOutputs] at h
    injection h with h1
    exact ⟨h1.symm, fun r hr => absurd hr (List.not_mem_nil r)⟩
  | cons r rest ih =>
    intro rv rv2 hall h
    have h1 := hall r (by simp)
    by_cases hv : isValid r.tyId (stC r) = true
    · simp only [processCNodeOutputs] at h
      rw [if_pos hv, h1] at h
      by_cases ha : approx r.tyId (pyOf r) (stC r) = true
      · simp only [if_pos ha] at h
        obtain ⟨hrv, hrest⟩ := ih rv rv2 (fun x hx => hall x (by simp [hx])) h
        refine ⟨hrv, fun x hx => ?_⟩
        rcases List.mem_cons.mp hx with h2 | h2
        · subst h2; exact ha
        · exact hrest x h2
      · simp only [if_neg ha] at h
        cases h
    · simp only [processCNodeOutputs] at h
      rw [if_neg hv] at h
      cases h

theorem processCNodeOutputs_error_elim (isValid : Nat → Int → Bool)
    (approx : Nat → Int → Int → Bool) (stC : VarV → Int) (pyOf : VarV → Int)
    (outs : List VarV) :
    ∀ rv r py c, (∀ x ∈ outs, alookup rv x = some (pyOf x)) →
      processCNodeOutputs isValid approx stC outs rv = .error (.badCLinkerOutput r py c) →
      r ∈ outs ∧ py = pyOf r ∧ c = stC r ∧ approx r.tyId py c = false := by
  induction outs with
  | nil => intro rv r py c _ h; cases h
  | cons x rest ih =>
    intro rv r py c hall h
    have h1 := hall x (by simp)
    by_cases hv : isValid x.tyId (stC x) = true
    · simp only [processCNodeOutputs] at h
      rw [if_pos hv, h1] at h
      by_cases ha : approx x.tyId (pyOf x) (stC x) = true
      · simp only [if_pos ha] at h
        obtain ⟨hm, hpy, hc, hf⟩ := ih rv r py c (fun y hy => hall y (by simp [hy])) h
        exact ⟨by simp [hm], hpy, hc, hf⟩
      · simp only [if_neg ha] at h
        injection h with h2
        injection h2 with hr hpy hc
        subst hr; subst hpy; subst hc
        exact ⟨by simp, rfl, rfl, Bool.eq_false_iff.mpr ha⟩
    · simp only [processCNodeOutputs] at h
      rw [if_neg hv] at h
      cases h

theorem processCNodeOutputs_error_exists (isValid : Nat → Int → Bool)
    (approx : Nat → Int → Int → Bool) (stC : VarV → Int) (pyOf : VarV → Int)
    (outs : List VarV) :
    ∀ rv, (∀ r ∈ outs, alookup rv r = some (pyOf r)) →
      (∀ r ∈ outs, isValid r.tyId (stC r) = true) →
      (∃ r ∈ outs, approx r.tyId (pyOf r) (stC r) = false) →
      ∃ r ∈ outs, approx r.tyId (pyOf r) (stC r) = false ∧
        processCNodeOutputs isValid approx stC outs rv =
          .error (.badCLinkerOutput r (pyOf r) (stC r)) := by
  induction outs with
  | nil => intro rv _ _ hex; obtain ⟨r, hr, _⟩ := hex; cases hr
  | cons x rest ih =>
    intro rv hall hvalid hex
    have h1 := hall x (by simp)
    have h2 := hvalid x (by simp)
    by_cases ha : approx x.tyId (pyOf x) (stC x) = true
    · have hrest : ∃ r ∈ rest, approx r.tyId (pyOf r) (stC r) = false := by
        obtain ⟨r, hr, hf⟩ := hex
        rcases List.mem_cons.mp hr with hh | hh
        · subst hh; rw [ha] at hf; cases hf
        · exact ⟨r, hh, hf⟩
      obtain ⟨r, hr, hf, hres⟩ := ih rv (fun y hy => hall y (by simp [hy]))
        (fun y hy => hvalid y (by simp [hy])) hrest
      refine ⟨r, by simp [hr], hf, ?_⟩
      simp only [processCNodeOutputs]
      rw [if_pos h2, h1]
      simp only [if_pos ha]
      exact hres
    · have haf : approx x.tyId (pyOf x) (stC x) = false := Bool.eq_false_iff.mpr ha
      refine ⟨x, by simp, haf, ?_⟩
      simp only [processCNodeOutputs]
      rw [if_pos h2, h1]
      simp only [if_neg ha]

/-- C4: when both thunks run for a node, every output placed into
`r_vals` by the reference (`thunk_py`) pass is compared by
`values_eq_approx` against the compiled (`thunk_c`) output cell; a
mismatch raises `BadCLinkerOutput` carrying the reference value and the
compiled value; on success `r_vals` is returned unchanged, so every
later invariant check for such a variable observes exactly the
reference backend's value. -/
theorem C4_bad_compiled_output_spec (isValid : Nat → Int → Bool)
    (approx : Nat → Int → Int → Bool) (stPy stC : VarV → Int)
    (outs : List VarV) (rv0 rv1 : List (VarV × Int))
    (hpy : processPyNodeOutputs isValid stPy outs rv0 = .ok rv1)
    (hvalidC : ∀ r ∈ outs, isValid r.tyId (stC r) = true) :
    (∀ r ∈ outs, alookup rv1 r = some (stPy r)) ∧
    ((∀ r ∈ outs, approx r.tyId (stPy r) (stC r) = true) →
      processCNodeOutputs isValid approx stC outs rv1 = .ok rv1) ∧
    (∀ rv2, processCNodeOutputs isValid approx stC outs rv1 = .ok rv2 →
      rv2 = rv1 ∧ ∀ r ∈ outs, alookup rv2 r = some (stPy r)) ∧
    (∀ r py c, processCNodeOutputs isValid approx stC outs rv1 =
        .error (.badCLinkerOutput r py c) →
      r ∈ outs ∧ py = stPy r ∧ c = stC r ∧ approx r.tyId py c = false) ∧
    ((∃ r ∈ outs, approx r.tyId (stPy r) (stC r) = false) →
      ∃ r ∈ outs, approx r.tyId (stPy r) (stC r) = false ∧
        processCNodeOutputs isValid approx stC outs rv1 =
          .error (.badCLinkerOutput r (stPy r) (stC r))) := by
  have hall : ∀ r ∈ outs, alookup rv1 r = some (stPy r) :=
    (processPyNodeOutputs_ok isValid stPy outs rv0 rv1 hpy).2
  refine ⟨hall, ?_, ?_, ?_, ?_⟩
  · intro happ
    exact processCNodeOutputs_ok_of_all isValid approx stC stPy outs rv1 hall hvalidC happ
  · intro rv2 h
    obtain ⟨hrv, _⟩ := processCNodeOutputs_ok_elim isValid approx stC stPy outs rv1 rv2 hall h
    subst hrv
    exact ⟨rfl, hall⟩
  · intro r py c h
    exact processCNodeOutputs_error_elim isValid approx stC stPy outs rv1 r py c hall h
  · intro hex
    exact processCNodeOutputs_error_exists isValid approx stC stPy outs rv1 hall hvalidC hex

/-- Witness for C4: one output, reference value 3, compiled value 3. -/
theorem C4_bad_compiled_output_spec_witness :
    processPyNodeOutputs (fun _ _ => true) (fun _ => 3) [⟨0, 0⟩] [] =
      .ok [(⟨0, 0⟩, 3)] ∧
    alookup [((⟨0, 0⟩ : VarV), (3 : Int))] (⟨0, 0⟩ : VarV) = some 3 := by
  refine ⟨rfl, ?_⟩
  exact (C4_bad_compiled_output_spec (fun _ _ => true) (fun _ x y => x == y)
    (fun _ => 3) (fun _ => 3) [⟨0, 0⟩] [] [(⟨0, 0⟩, 3)] rfl (by decide)).1
    ⟨0, 0⟩ (by simp)

/-! ### C5 — `_check_inputs` (lines 262-284): the destroy-map check.

Storage cells hold `Option Int` (a cell can be cleared to `None` by the
check itself); `approxO ty v cell` models `values_eq_approx(v, cell)`
where the second argument is the raw cell content. -/

/-- Exceptions of `_check_inputs`: the plain
`Exception('failure in topological ordering')` and `BadDestroyMap`. -/
inductive CheckInputsErr
  | topologicalOrderFailure
  | badDestroyMap (nodeId idx : Nat) (old_val : Int) (new_val : Option Int)
deriving DecidableEq

/-- `destroyed_idx_list`: all input positions listed in any entry of the
node's `destroy_map`. -/
def destroyed_idx_list (destroy_map : List (Nat × List Nat)) : List Nat :=
  (destroy_map.map Prod.snd).flatten

/-- `destroyed_res_list = [node.inputs[i] for i in destroyed_idx_list]`. -/
def destroyed_res_list (inputs : List VarV) (destroy_map : List (Nat × List Nat)) :
    List VarV :=
  (destroyed_idx_list destroy_map).filterMap inputs.get?

/-- The loop of `_check_inputs` over `enumerate(node.inputs)`, threading
the storage map and `dr_vals` (which maps a variable to its
post-destruction value and the destroying node).  Note that membership
in `destroyed_res_list` is tested on the *variable*, not on the index. -/
def check_inputs_go (approxO : Nat → Int → Option Int → Bool) (r_vals : VarV → Int)
    (dres : List VarV) (nodeId : Nat) (nodeActive clobber : Bool) :
    List (Nat × VarV) → (VarV → Option Int) → List (VarV × (Option Int × Nat)) →
    Except CheckInputsErr ((VarV → Option Int) × List (VarV × (Option Int × Nat)))
  | [], st, dr => .ok (st, dr)
  | (r_idx, r) :: rest, st, dr =>
    if approxO r.tyId (r_vals r) (st r) then
      check_inputs_go approxO r_vals dres nodeId nodeActive clobber rest st dr
    else if r ∈ dres then
      if nodeActive then
        if ((alookup dr r).map Prod.snd).getD nodeId ≠ nodeId then
          .error .topologicalOrderFailure
        else
          check_inputs_go approxO r_vals dres nodeId nodeActive clobber rest
            (fun x => if x = r then none else st x)
            (if clobber then aset dr r (st r, nodeId) else dr)
      else check_inputs_go approxO r_vals dres nodeId nodeActive clobber rest st dr
    else .error (.badDestroyMap nodeId r_idx (r_vals r) (st r))

/-- `_check_inputs(node, storage_map, r_vals, dr_vals, active_nodes,
clobber_dr_vals)`. -/
def check_inputs (approxO : Nat → Int → Option Int → Bool) (r_vals : VarV → Int)
    (inputs : List VarV) (destroy_map : List (Nat × List Nat)) (nodeId : Nat)
    (nodeActive clobber : Bool) (st : VarV → Option Int)
    (dr : List (VarV × (Option Int × Nat))) :
    Except CheckInputsErr ((VarV → Option Int) × List (VarV × (Option Int × Nat))) :=
  check_inputs_go approxO r_vals (destroyed_res_list inputs destroy_map) nodeId
    nodeActive clobber inputs.enum st dr

/-- Counterexample to C5 as stated: a node whose inputs list the same
variable twice (`add(x, x)` style), with `destroy_map = {0: [0]}`.  The
shared storage cell differs from `r_vals`, input index 1 is *not* listed
in the destroy map, and yet no `BadDestroyMap` is raised, because
`_check_inputs` tests membership of the *variable* in
`destroyed_res_list`, not the index. -/
theorem C5_bad_destroy_map_cex :
    (1 : Nat) ∉ destroyed_idx_list [(0, [0])] ∧
    (fun (_ : Nat) (x : Int) (y : Option Int) => some x == y) 0 0 (some 1) = false ∧
    check_inputs (fun _ x y => some x == y) (fun _ => 0)
      [⟨0, 0⟩, ⟨0, 0⟩] [(0, [0])] 7 false true (fun _ => some 1) [] =
      .ok (fun _ => some 1, []) := by
  refine ⟨by decide, by decide, ?_⟩
  rfl

theorem check_inputs_go_spec (approxO : Nat → Int → Option Int → Bool)
    (r_vals : VarV → Int) (dres : List VarV) (nodeId : Nat)
    (nodeActive clobber : Bool) (st0 : VarV → Option Int) :
    ∀ (l : List (Nat × VarV)) (st : VarV → Option Int)
      (dr : List (VarV × (Option Int × Nat))),
      (∀ x, x ∉ dres → st x = st0 x) →
      (∀ x p, alookup dr x = some p → x ∈ dres → p.2 = nodeId) →
      ((∀ q ∈ l, q.2 ∈ dres ∨ approxO q.2.tyId (r_vals q.2) (st0 q.2) = true) →
        ∃ stf drf, check_inputs_go approxO r_vals dres nodeId nodeActive clobber l st dr =
          .ok (stf, drf)) ∧
      (∀ n idx old nv,
        check_inputs_go approxO r_vals dres nodeId nodeActive clobber l st dr =
          .error (.badDestroyMap n idx old nv) →
        ∃ r, (idx, r) ∈ l ∧ r ∉ dres ∧ old = r_vals r ∧ nv = st0 r ∧
          approxO r.tyId (r_vals r) (st0 r) = false ∧ n = nodeId) ∧
      ((∃ q ∈ l, q.2 ∉ dres ∧ approxO q.2.tyId (r_vals q.2) (st0 q.2) = false) →
        ∃ idx old nv,
          check_inputs_go approxO r_vals dres nodeId nodeActive clobber l st dr =
            .error (.badDestroyMap nodeId idx old nv)) := by
  intro l
  induction l with
  | nil =>
    intro st dr hst hdr
    refine ⟨fun _ => ⟨st, dr, rfl⟩, ?_, ?_⟩
    · intro n idx old nv h
      cases h
    · intro hex
      obtain ⟨q, hq, _⟩ := hex
      cases hq
  | cons p rest ih =>
    obtain ⟨r_idx, r⟩ := p
    intro st dr hst hdr
    by_cases hap : approxO r.tyId (r_vals r) (st r) = true
    · have hres : check_inputs_go approxO r_vals dres nodeId nodeActive clobber
          ((r_idx, r) :: rest) st dr =
          check_inputs_go approxO r_vals dres nodeId nodeActive clobber rest st dr := by
        simp only [check_inputs_go]
        rw [if_pos hap]
      obtain ⟨g1, g2, g3⟩ := ih st dr hst hdr
      refine ⟨?_, ?_, ?_⟩
      · intro hall
        rw [hres]
        exact g1 (fun q hq => hall q (by simp [hq]))
      · intro n idx old nv h
        rw [hres] at h
        obtain ⟨r1, hmem, h2, h3, h4, h5, h6⟩ := g2 n idx old nv h
        exact ⟨r1, by simp [hmem], h2, h3, h4, h5, h6⟩
      · intro hex
        rw [hres]
        apply g3
        obtain ⟨q, hq, hnd, hf⟩ := hex
        rcases List.mem_cons.mp hq with hh | hh
        · subst hh
          rw [hst r hnd] at hap
          rw [hap] at hf
          cases hf
        · exact ⟨q, hh, hnd, hf⟩
    · by_cases hd : r ∈ dres
      · by_cases hact : nodeActive = true
        · have hcond : ((alookup dr r).map Prod.snd).getD nodeId = nodeId := by
            cases hdr1 : alookup dr r with
            | none => rfl
            | some q => simpa using hdr r q hdr1 hd
          have hres : check_inputs_go approxO r_vals dres nodeId nodeActive clobber
              ((r_idx, r) :: rest) st dr =
              check_inputs_go approxO r_vals dres nodeId nodeActive clobber rest
                (fun x => if x = r then none else st x)
                (if clobber then aset dr r (st r, nodeId) else dr) := by
            simp only [check_inputs_go]
            rw [if_neg hap, if_pos hd, if_pos hact, if_neg (fun hne => hne hcond)]
          have hst1 : ∀ x, x ∉ dres → (fun x => if x = r then none else st x) x = st0 x := by
            intro x hx
            by_cases hxr : x = r
            · subst hxr; exact absurd hd hx
            · simp only [if_neg hxr]
              exact hst x hx
          have hdr1 : ∀ x q, alookup (if clobber then aset dr r (st r, nodeId) else dr) x =
              some q → x ∈ dres → q.2 = nodeId := by
            intro x q hq hx
            by_cases hcl : clobber = true
            · rw [if_pos hcl, alookup_aset] at hq
              by_cases hrx : r = x
              · rw [if_pos hrx] at hq
                injection hq with hq1
                rw [← hq1]
              · rw [if_neg hrx] at hq
                exact hdr x q hq hx
            · rw [if_neg hcl] at hq
              exact hdr x q hq hx
          obtain ⟨g1, g2, g3⟩ := ih (fun x => if x = r then none else st x)
            (if clobber then aset dr r (st r, nodeId) else dr) hst1 hdr1
          refine ⟨?_, ?_, ?_⟩
          · intro hall
            rw [hres]
            exact g1 (fun q hq => hall q (by simp [hq]))
          · intro n idx old nv h
            rw [hres] at h
            obtain ⟨r1, hmem, h2, h3, h4, h5, h6⟩ := g2 n idx old nv h
            exact ⟨r1, by simp [hmem], h2, h3, h4, h5, h6⟩
          · intro hex
            rw [hres]
            apply g3
            obtain ⟨q, hq, hnd, hf⟩ := hex
            rcases List.mem_cons.mp hq with hh | hh
            · subst hh
              exact absurd hd hnd
            · exact ⟨q, hh, hnd, hf⟩
        · have hres : check_inputs_go approxO r_vals dres nodeId nodeActive clobber
              ((r_idx, r) :: rest) st dr =
              check_inputs_go approxO r_vals dres nodeId nodeActive clobber rest st dr := by
            simp only [check_inputs_go]
            rw [if_neg hap, if_pos hd, if_neg hact]
          obtain ⟨g1, g2, g3⟩ := ih st dr hst hdr
          refine ⟨?_, ?_, ?_⟩
          · intro hall
            rw [hres]
            exact g1 (fun q hq => hall q (by simp [hq]))
          · intro n idx old nv h
            rw [hres] at h
            obtain ⟨r1, hmem, h2, h3, h4, h5, h6⟩ := g2 n idx old nv h
            exact ⟨r1, by simp [hmem], h2, h3, h4, h5, h6⟩
          · intro hex
            rw [hres]
            apply g3
            obtain ⟨q, hq, hnd, hf⟩ := hex
            rcases List.mem_cons.mp hq with hh | hh
            · subst hh
              exact absurd hd hnd
            · exact ⟨q, hh, hnd, hf⟩
      · have hst1 : st r = st0 r := hst r hd
        have hres : check_inputs_go approxO r_vals dres nodeId nodeActive clobber
            ((r_idx, r) :: rest) st dr =
            .error (.badDestroyMap nodeId r_idx (r_vals r) (st r)) := by
          simp only [check_inputs_go]
          rw [if_neg hap, if_neg hd]
        have hapf : approxO r.tyId (r_vals r) (st0 r) = false := by
          rw [← hst1]
          exact Bool.eq_false_iff.mpr hap
        refine ⟨?_, ?_, ?_⟩
        · intro hall
          rcases hall (r_idx, r) (by simp) with hh | hh
          · exact absurd hh hd
          · rw [hapf] at hh; cases hh
        · intro n idx old nv h
          rw [hres] at h
          injection h with h1
          injection h1 with hn hidx hold hnv
          subst hn; subst hidx; subst hold; subst hnv
          exact ⟨r, by simp, hd, rfl, hst1, hapf, rfl⟩
        · intro hex
          exact ⟨r_idx, r_vals r, st r, hres⟩

/-- C5 (amended): after a node's thunk runs, for every input *whose
variable does not occur at any index listed in the node's
`destroy_map`* and whose storage cell differs by `values_eq_approx`
from its `r_vals` entry, `BadDestroyMap` is raised carrying the node,
the input index and the old and new values; inputs whose variable does
occur at a listed index may differ without raising `BadDestroyMap`.
(The original claim, phrased per-index, fails when the same variable
occupies both a listed and an unlisted index — see the counterexample.) -/
theorem C5_bad_destroy_map_spec (approxO : Nat → Int → Option Int → Bool)
    (r_vals : VarV → Int) (inputs : List VarV) (destroy_map : List (Nat × List Nat))
    (nodeId : Nat) (nodeActive clobber : Bool) (st0 : VarV → Option Int)
    (dr0 : List (VarV × (Option Int × Nat)))
    (hdr : ∀ x p, alookup dr0 x = some p →
      x ∈ destroyed_res_list inputs destroy_map → p.2 = nodeId) :
    ((∀ q ∈ inputs.enum, q.2 ∈ destroyed_res_list inputs destroy_map ∨
        approxO q.2.tyId (r_vals q.2) (st0 q.2) = true) →
      ∃ stf drf, check_inputs approxO r_vals inputs destroy_map nodeId nodeActive
        clobber st0 dr0 = .ok (stf, drf)) ∧
    (∀ n idx old nv,
      check_inputs approxO r_vals inputs destroy_map nodeId nodeActive clobber st0 dr0 =
        .error (.badDestroyMap n idx old nv) →
      ∃ r, (idx, r) ∈ inputs.enum ∧ r ∉ destroyed_res_list inputs destroy_map ∧
        old = r_vals r ∧ nv = st0 r ∧ approxO r.tyId (r_vals r) (st0 r) = false ∧
        n = nodeId) ∧
    ((∃ q ∈ inputs.enum, q.2 ∉ destroyed_res_list inputs destroy_map ∧
        approxO q.2.tyId (r_vals q.2) (st0 q.2) = false) →
      ∃ idx old nv, check_inputs approxO r_vals inputs destroy_map nodeId nodeActive
        clobber st0 dr0 = .error (.badDestroyMap nodeId idx old nv)) :=
  check_inputs_go_spec approxO r_vals (destroyed_res_list inputs destroy_map) nodeId
    nodeActive clobber st0 inputs.enum st0 dr0 (fun _ _ => rfl) hdr

/-- Witness for the amended C5: one undeclared mutated input, so the
scan raises `BadDestroyMap` at index 0. -/
theorem C5_bad_destroy_map_spec_witness :
    ∃ idx old nv, check_inputs (fun _ x y => some x == y) (fun _ => 0)
      [⟨0, 0⟩] [] 7 true true (fun _ => some 1) [] =
      .error (.badDestroyMap 7 idx old nv) := by
  have h := C5_bad_destroy_map_spec (fun _ x y => some x == y) (fun _ => 0)
    [⟨0, 0⟩] [] 7 true true (fun _ => some 1) []
    (fun x p hp _ => by cases hp)
  exact h.2.2 ⟨(0, ⟨0, 0⟩), by simp [List.enum], by decide, by decide⟩

/-! ### C6, C7 — `_VariableEquivalenceTracker` (lines 558-678)

Variables are modelled by their identity (`Nat`).  `equiv` maps a
variable to the identity of its equivalence-class object; `classes`
maps a class identity to its member list.  Two variables "reference one
and the same class" exactly when `equiv` sends them to the same class
identity, which models Python's sharing of one mutable `set` object. -/

/-- One element of `self.reasons[new_r]` in the tracker (the reason, the
replaced variable, and the two subgraph strings rendered eagerly). -/
structure ReasonTup where
  reason : String
  oldR : Nat
  oldGraph : String
  newGraph : String
deriving DecidableEq

/-- The state of a `_VariableEquivalenceTracker`. -/
structure TrkState where
  equiv : List (Nat × Nat)
  classes : List (Nat × List Nat)
  nextClassId : Nat
  all_variables_ever : List Nat
  active_nodes : List Nat
  inactive_nodes : List Nat
  reasons : List (Nat × List ReasonTup)
  replaced_by : List (Nat × List (String × Nat))
  event_list : List EnvEvent
deriving DecidableEq

/-- Exceptions of the tracker callbacks: a failed `assert`, or the
`KeyError` from `self.replaced_by[r]` when `r` was never registered. -/
inductive TrkErr
  | assertionError
  | keyError
deriving DecidableEq

/-- `self.equiv.setdefault(v, set([v]))` when `v` is absent: allocate a
fresh singleton class and append `v` to `all_variables_ever`
(lines 654-658 and 660-664). -/
def fresh_singleton (s : TrkState) (v : Nat) : TrkState × Nat :=
  ({ s with equiv := aset s.equiv v s.nextClassId,
            classes := aset s.classes s.nextClassId [v],
            nextClassId := s.nextClassId + 1,
            all_variables_ever := s.all_variables_ever ++ [v] }, s.nextClassId)

/-- Set union, preserving the receiver's elements first
(`r_set.update(new_r_set)`). -/
def list_union (a b : List Nat) : List Nat :=
  a ++ b.filter (fun y => decide (y ∉ a))

/-- `on_prune` (lines 603-609): record the event, assert the node is
active and not inactive, and move it to the inactive set.  The
equivalence classes and `all_variables_ever` are untouched. -/
def on_prune (s : TrkState) (nodeId : Nat) (op : String) (numInputs : Nat) :
    Except TrkErr TrkState :=
  if nodeId ∈ s.active_nodes then
    if nodeId ∈ s.inactive_nodes then .error .assertionError
    else .ok { s with
      event_list := s.event_list ++
        [(⟨"prune", nodeId, numInputs, op, none, none⟩ : EnvEvent)],
      active_nodes := s.active_nodes.erase nodeId,
      inactive_nodes := s.inactive_nodes ++ [nodeId] }
  else .error .assertionError

/-- Lines 637-652 of `on_change_input`: `setdefault` for `new_r`'s
chains; append `(reason, r, rendered old graph, rendered new graph)` to
`reasons[new_r]` and `(reason, new_r)` to `replaced_by[r]` unless the
exact `(reason, r)` pair is already present.  `render` models
`_debugprint(..., depth=6)` at rewrite time. -/
def on_change_reasons (render : Nat → String) (s : TrkState) (r new_r : Nat)
    (reason : String) : Except TrkErr TrkState :=
  if ((alookup (asetdefault s.reasons new_r []) new_r).getD []).any
      (fun t => t.reason == reason && t.oldR == r) then
    .ok { s with reasons := asetdefault s.reasons new_r [],
                 replaced_by := asetdefault s.replaced_by new_r [] }
  else
    match alookup (asetdefault s.replaced_by new_r []) r with
    | none => .error .keyError
    | some l =>
      .ok { s with
        reasons := aset (asetdefault s.reasons new_r []) new_r
          (((alookup (asetdefault s.reasons new_r []) new_r).getD []) ++
            [⟨reason, r, render r, render new_r⟩]),
        replaced_by := aset (asetdefault s.replaced_by new_r []) r
          (l ++ [(reason, new_r)]) }

/-- `r_set = self.equiv[v]` when present, else
`self.equiv.setdefault(v, set([v]))` plus the `all_variables_ever`
append: returns the updated state and the class identity. -/
def resolve_class (s : TrkState) (v : Nat) : TrkState × Nat :=
  match alookup s.equiv v with
  | some c => (s, c)
  | none => fresh_singleton s v

/-- Lines 654-678 of `on_change_input`: resolve (or freshly allocate)
the classes of `r` and `new_r`, set the union into `r`'s class object,
and re-point every member of `new_r`'s class to it. -/
def on_change_equiv (s : TrkState) (r new_r : Nat) : TrkState :=
  let p1 := resolve_class s r
  let p2 := resolve_class p1.1 new_r
  let rSet := p1.2
  let s2 := p2.1
  let newMembers := (alookup s2.classes p2.2).getD []
  let rMembers := (alookup s2.classes rSet).getD []
  let s3 := { s2 with classes := aset s2.classes rSet (list_union rMembers newMembers) }
  { s3 with equiv := newMembers.foldl (fun eq x => aset eq x rSet) s3.equiv }

/-- `on_change_input` (lines 633-678): record the change event (with
`str(reason)` and the index), update the reason chains, then merge the
equivalence classes. -/
def on_change_input (render : Nat → String) (s : TrkState) (nodeId : Nat)
    (op : String) (numInputs : Nat) (i : Nat) (r new_r : Nat) (reason : String) :
    Except TrkErr TrkState :=
  match on_change_reasons render
      { s with event_list := s.event_list ++
        [(⟨"change", nodeId, numInputs, op, some i, some reason⟩ : EnvEvent)] }
      r new_r reason with
  | .error e => .error e
  | .ok s2 => .ok (on_change_equiv s2 r new_r)

/-- The member list of the class object that `v` currently references
(empty when `v` references no class). -/
def classOf (s : TrkState) (v : Nat) : List Nat :=
  match alookup s.equiv v with
  | some c => (alookup s.classes c).getD []
  | none => []

/-- The members of `v`'s class before an event, where a variable not yet
tracked counts as its own singleton (the `set([v])` default). -/
def oldClassMembers (s : TrkState) (v : Nat) : List Nat :=
  match alookup s.equiv v with
  | some c => (alookup s.classes c).getD []
  | none => [v]

theorem mem_list_union (a b : List Nat) (x : Nat) :
    x ∈ list_union a b ↔ x ∈ a ∨ x ∈ b := by
  simp only [list_union, List.mem_append, List.mem_filter, decide_eq_true_eq]
  constructor
  · rintro (h | ⟨h, _⟩)
    · exact Or.inl h
    · exact Or.inr h
  · intro h
    by_cases ha : x ∈ a
    · exact Or.inl ha
    · rcases h with h | h
      · exact absurd h ha
      · exact Or.inr ⟨h, ha⟩

theorem foldl_aset_alookup (c : Nat) (l : List Nat) :
    ∀ (m : List (Nat × Nat)) (x : Nat),
      alookup (l.foldl (fun eq y => aset eq y c) m) x =
        if x ∈ l then some c else alookup m x := by
  induction l with
  | nil => intro m x; simp
  | cons y t ih =>
    intro m x
    simp only [List.foldl_cons]
    rw [ih (aset m y c) x, alookup_aset]
    by_cases ht : x ∈ t
    · simp [ht]
    · by_cases hy : y = x
      · subst hy
        simp [ht]
      · have : ¬x ∈ y :: t := by
          intro hc
          rcases List.mem_cons.mp hc with h | h
          · exact hy h.symm
          · exact ht h
        simp [ht, hy, this]

theorem alookup_asetdefault_self {κ α : Type} [DecidableEq κ] (m : List (κ × α))
    (k : κ) (d : α) :
    alookup (asetdefault m k d) k = some ((alookup m k).getD d) := by
  unfold asetdefault
  cases h : alookup m k with
  | some v => simp [h]
  | none => simp [alookup_aset, h]

theorem asetdefault_of_isSome {κ α : Type} [DecidableEq κ] (m : List (κ × α))
    (k : κ) (d : α) (h : (alookup m k).isSome = true) : asetdefault m k d = m := by
  unfold asetdefault
  cases hm : alookup m k with
  | some v => rfl
  | none => rw [hm] at h; cases h

/-- All that `resolve_class` guarantees about the returned state and
class identity, assuming the union-find well-formedness invariants. -/
theorem resolve_class_spec (s : TrkState) (v : Nat)
    (hwf1 : ∀ w c, alookup s.equiv w = some c → w ∈ (alookup s.classes c).getD [])
    (hwf2 : ∀ w c, alookup s.equiv w = some c → c < s.nextClassId) :
    alookup (resolve_class s v).1.equiv v = some (resolve_class s v).2 ∧
    (∀ w c, alookup (resolve_class s v).1.equiv w = some c →
      w ∈ (alookup (resolve_class s v).1.classes c).getD []) ∧
    (∀ w c, alookup (resolve_class s v).1.equiv w = some c →
      c < (resolve_class s v).1.nextClassId) ∧
    (∀ c, c < s.nextClassId →
      alookup (resolve_class s v).1.classes c = alookup s.classes c) ∧
    s.nextClassId ≤ (resolve_class s v).1.nextClassId ∧
    (resolve_class s v).2 < (resolve_class s v).1.nextClassId ∧
    (∀ w c, alookup s.equiv w = some c → alookup (resolve_class s v).1.equiv w = some c) ∧
    (∀ w, oldClassMembers (resolve_class s v).1 w = oldClassMembers s w) ∧
    oldClassMembers s v = (alookup (resolve_class s v).1.classes (resolve_class s v).2).getD [] := by
  cases hv : alookup s.equiv v with
  | some c =>
    have hres : resolve_class s v = (s, c) := by
      unfold resolve_class
      rw [hv]
    rw [hres]
    refine ⟨hv, hwf1, hwf2, fun _ _ => rfl, Nat.le_refl _, hwf2 v c hv, fun w c1 h => h,
      fun w => rfl, ?_⟩
    unfold oldClassMembers
    rw [hv]
  | none =>
    have hres : resolve_class s v = fresh_singleton s v := by
      unfold resolve_class
      rw [hv]
    rw [hres]
    unfold fresh_singleton
    simp only
    have hn : ∀ c, c < s.nextClassId →
        alookup (aset s.classes s.nextClassId [v]) c = alookup s.classes c := by
      intro c hc
      rw [alookup_aset, if_neg (by omega)]
    refine ⟨?_, ?_, ?_, hn, by omega, by omega, ?_, ?_, ?_⟩
    · rw [alookup_aset, if_pos rfl]
    · intro w c hw
      rw [alookup_aset] at hw
      by_cases hvw : v = w
      · rw [if_pos hvw] at hw
        injection hw with hw1
        rw [← hw1, alookup_aset, if_pos rfl]
        simp [hvw]
      · rw [if_neg hvw] at hw
        have hcw := hwf2 w c hw
        rw [hn c hcw]
        exact hwf1 w c hw
    · intro w c hw
      rw [alookup_aset] at hw
      by_cases hvw : v = w
      · rw [if_pos hvw] at hw
        injection hw with hw1
        omega
      · rw [if_neg hvw] at hw
        have := hwf2 w c hw
        omega
    · intro w c hw
      have hvw : v ≠ w := by
        intro hc
        rw [← hc, hv] at hw
        cases hw
      rw [alookup_aset, if_neg hvw]
      exact hw
    · intro w
      unfold oldClassMembers
      simp only
      rw [alookup_aset]
      by_cases hvw : v = w
      · rw [if_pos hvw, ← hvw, hv]
        simp [alookup_aset, hvw]
      · rw [if_neg hvw]
        cases hw : alookup s.equiv w with
        | some c =>
          have hcn := hwf2 w c hw
          show (alookup (aset s.classes s.nextClassId [v]) c).getD [] =
            (alookup s.classes c).getD []
          rw [hn c hcn]
        | none => rfl
    · unfold oldClassMembers
      rw [hv, alookup_aset, if_pos rfl]
      rfl

/-- The union-and-re-point step of `on_change_input`: afterwards `r`
and `new_r` reference one and the same class object, which contains
both of them together with every previous member of both classes. -/
theorem on_change_equiv_spec (s : TrkState) (r new_r : Nat)
    (hwf1 : ∀ w c, alookup s.equiv w = some c → w ∈ (alookup s.classes c).getD [])
    (hwf2 : ∀ w c, alookup s.equiv w = some c → c < s.nextClassId) :
    (alookup (on_change_equiv s r new_r).equiv r).isSome = true ∧
    alookup (on_change_equiv s r new_r).equiv new_r =
      alookup (on_change_equiv s r new_r).equiv r ∧
    r ∈ classOf (on_change_equiv s r new_r) r ∧
    new_r ∈ classOf (on_change_equiv s r new_r) r ∧
    (∀ x ∈ oldClassMembers s r, x ∈ classOf (on_change_equiv s r new_r) r) ∧
    (∀ x ∈ oldClassMembers s new_r, x ∈ classOf (on_change_equiv s r new_r) r) := by
  obtain ⟨ha1, hwf1a, hwf2a, hd1, hle1, hlt1, hg1, hh1, hi1⟩ := resolve_class_spec s r hwf1 hwf2
  obtain ⟨ha2, hwf1b, hwf2b, hd2, hle2, hlt2, hg2, hh2, hi2⟩ :=
    resolve_class_spec (resolve_class s r).1 new_r hwf1a hwf2a
  have hs4 : on_change_equiv s r new_r =
      { (resolve_class (resolve_class s r).1 new_r).1 with
        classes := aset (resolve_class (resolve_class s r).1 new_r).1.classes
          (resolve_class s r).2
          (list_union
            ((alookup (resolve_class (resolve_class s r).1 new_r).1.classes
              (resolve_class s r).2).getD [])
            ((alookup (resolve_class (resolve_class s r).1 new_r).1.classes
              (resolve_class (resolve_class s r).1 new_r).2).getD [])),
        equiv := ((alookup (resolve_class (resolve_class s r).1 new_r).1.classes
              (resolve_class (resolve_class s r).1 new_r).2).getD []).foldl
          (fun eq x => aset eq x (resolve_class s r).2)
          (resolve_class (resolve_class s r).1 new_r).1.equiv } := rfl
  set p1 := resolve_class s r with hp1
  set p2 := resolve_class p1.1 new_r with hp2
  set s2 := p2.1 with hs2
  set rSet := p1.2 with hrSet
  set newMembers := (alookup s2.classes p2.2).getD [] with hnm
  set rMembers := (alookup s2.classes rSet).getD [] with hrm
  have hEr2 : alookup s2.equiv r = some rSet := hg2 r rSet ha1
  have hrmem : r ∈ rMembers := hwf1b r rSet hEr2
  have hnewmem : new_r ∈ newMembers := hwf1b new_r p2.2 ha2
  have hEr : alookup (on_change_equiv s r new_r).equiv r = some rSet := by
    rw [hs4]
    simp only
    rw [foldl_aset_alookup]
    by_cases hrn : r ∈ newMembers
    · rw [if_pos hrn]
    · rw [if_neg hrn]
      exact hEr2
  have hEnew : alookup (on_change_equiv s r new_r).equiv new_r = some rSet := by
    rw [hs4]
    simp only
    rw [foldl_aset_alookup, if_pos hnewmem]
  have hclasses : alookup (on_change_equiv s r new_r).classes rSet =
      some (list_union rMembers newMembers) := by
    rw [hs4]
    simp only
    rw [alookup_aset, if_pos rfl]
  have hclassOf : classOf (on_change_equiv s r new_r) r = list_union rMembers newMembers := by
    unfold classOf
    rw [hEr]
    show (alookup (on_change_equiv s r new_r).classes rSet).getD [] =
      list_union rMembers newMembers
    rw [hclasses]
    rfl
  have holdr : oldClassMembers s r = rMembers := by
    rw [hi1, hrm]
    rw [hd2 rSet hlt1]
  have holdnew : oldClassMembers s new_r = newMembers := by
    rw [← hh1 new_r, hi2]
  refine ⟨by rw [hEr]; rfl, by rw [hEr, hEnew], ?_, ?_, ?_, ?_⟩
  · rw [hclassOf, mem_list_union]
    exact Or.inl hrmem
  · rw [hclassOf, mem_list_union]
    exact Or.inr hnewmem
  · intro x hx
    rw [hclassOf, mem_list_union]
    rw [holdr] at hx
    exact Or.inl hx
  · intro x hx
    rw [hclassOf, mem_list_union]
    rw [holdnew] at hx
    exact Or.inr hx

theorem on_change_reasons_preserves (render : Nat → String) (s : TrkState)
    (r new_r : Nat) (reason : String) (s2 : TrkState)
    (h : on_change_reasons render s r new_r reason = .ok s2) :
    s2.equiv = s.equiv ∧ s2.classes = s.classes ∧ s2.nextClassId = s.nextClassId := by
  unfold on_change_reasons at h
  by_cases hany : ((alookup (asetdefault s.reasons new_r []) new_r).getD []).any
      (fun t => t.reason == reason && t.oldR == r) = true
  · rw [if_pos hany] at h
    injection h with h1
    subst h1
    exact ⟨rfl, rfl, rfl⟩
  · rw [if_neg hany] at h
    cases hl : alookup (asetdefault s.replaced_by new_r []) r with
    | none => rw [hl] at h; cases h
    | some l =>
      rw [hl] at h
      injection h with h1
      subst h1
      exact ⟨rfl, rfl, rfl⟩

theorem resolve_class_chains (s : TrkState) (v : Nat) :
    (resolve_class s v).1.reasons = s.reasons ∧
    (resolve_class s v).1.replaced_by = s.replaced_by := by
  unfold resolve_class fresh_singleton
  cases alookup s.equiv v <;> exact ⟨rfl, rfl⟩

theorem on_change_equiv_chains (s : TrkState) (r new_r : Nat) :
    (on_change_equiv s r new_r).reasons = s.reasons ∧
    (on_change_equiv s r new_r).replaced_by = s.replaced_by := by
  obtain ⟨h1, h2⟩ := resolve_class_chains s r
  obtain ⟨h3, h4⟩ := resolve_class_chains (resolve_class s r).1 new_r
  constructor
  · rw [show (on_change_equiv s r new_r).reasons =
      (resolve_class (resolve_class s r).1 new_r).1.reasons from rfl, h3, h1]
  · rw [show (on_change_equiv s r new_r).replaced_by =
      (resolve_class (resolve_class s r).1 new_r).1.replaced_by from rfl, h4, h2]

theorem on_change_input_ok_elim (render : Nat → String) (s : TrkState) (nodeId : Nat)
    (op : String) (numInputs i r new_r : Nat) (reason : String) (s' : TrkState)
    (hok : on_change_input render s nodeId op numInputs i r new_r reason = .ok s') :
    ∃ sB, on_change_reasons render
        { s with event_list := s.event_list ++
          [(⟨"change", nodeId, numInputs, op, some i, some reason⟩ : EnvEvent)] }
        r new_r reason = .ok sB ∧ s' = on_change_equiv sB r new_r := by
  unfold on_change_input at hok
  cases hr : on_change_reasons render
      { s with event_list := s.event_list ++
        [(⟨"change", nodeId, numInputs, op, some i, some reason⟩ : EnvEvent)] }
      r new_r reason with
  | error e =>
    rw [hr] at hok
    cases hok
  | ok sB =>
    rw [hr] at hok
    injection hok with h1
    exact ⟨sB, rfl, h1.symm⟩

/-- C6: after a change-input event replacing `r` with `new_r`, the two
variables reference one and the same equivalence class, containing both
of them together with all previous members of both classes; and pruning
a node never changes `equiv`, the class objects, or the
`all_variables_ever` list. -/
theorem C6_equiv_merge_and_prune_monotone (render : Nat → String) (s : TrkState)
    (nodeId : Nat) (op : String) (numInputs i r new_r : Nat) (reason : String)
    (s' : TrkState)
    (hwf1 : ∀ w c, alookup s.equiv w = some c → w ∈ (alookup s.classes c).getD [])
    (hwf2 : ∀ w c, alookup s.equiv w = some c → c < s.nextClassId)
    (hok : on_change_input render s nodeId op numInputs i r new_r reason = .ok s') :
    ((alookup s'.equiv r).isSome = true ∧
     alookup s'.equiv new_r = alookup s'.equiv r ∧
     r ∈ classOf s' r ∧ new_r ∈ classOf s' r ∧
     (∀ x ∈ oldClassMembers s r, x ∈ classOf s' r) ∧
     (∀ x ∈ oldClassMembers s new_r, x ∈ classOf s' r)) ∧
    (∀ (t : TrkState) (n2 : Nat) (op2 : String) (k2 : Nat) (t' : TrkState),
      on_prune t n2 op2 k2 = .ok t' →
      t'.equiv = t.equiv ∧ t'.classes = t.classes ∧
      t'.all_variables_ever = t.all_variables_ever) := by
  constructor
  · obtain ⟨sB, hr, hs'⟩ := on_change_input_ok_elim render s nodeId op numInputs i r
      new_r reason s' hok
    obtain ⟨hq, hc, hn⟩ := on_change_reasons_preserves render _ r new_r reason sB hr
    have hq1 : sB.equiv = s.equiv := hq
    have hc1 : sB.classes = s.classes := hc
    have hn1 : sB.nextClassId = s.nextClassId := hn
    have hwf1B : ∀ w c, alookup sB.equiv w = some c →
        w ∈ (alookup sB.classes c).getD [] := by
      rw [hq1, hc1]
      exact hwf1
    have hwf2B : ∀ w c, alookup sB.equiv w = some c → c < sB.nextClassId := by
      rw [hq1, hn1]
      exact hwf2
    have hold : ∀ w, oldClassMembers sB w = oldClassMembers s w := by
      intro w
      unfold oldClassMembers
      rw [hq1, hc1]
    obtain ⟨m1, m2, m3, m4, m5, m6⟩ := on_change_equiv_spec sB r new_r hwf1B hwf2B
    subst hs'
    exact ⟨m1, m2, m3, m4,
      fun x hx => m5 x (by rw [hold r]; exact hx),
      fun x hx => m6 x (by rw [hold new_r]; exact hx)⟩
  · intro t n2 op2 k2 t' hp
    unfold on_prune at hp
    by_cases h1 : n2 ∈ t.active_nodes
    · rw [if_pos h1] at hp
      by_cases h2 : n2 ∈ t.inactive_nodes
      · rw [if_pos h2] at hp
        cases hp
      · rw [if_neg h2] at hp
        injection hp with hp1
        subst hp1
        exact ⟨rfl, rfl, rfl⟩
    · rw [if_neg h1] at hp
      cases hp

theorem alookup_pair_elim {α : Type} (k1 k2 : Nat) (v1 v2 : α) (w : Nat) (c : α)
    (h : alookup [(k1, v1), (k2, v2)] w = some c) :
    (w = k1 ∧ c = v1) ∨ (w = k2 ∧ c = v2) := by
  simp only [alookup] at h
  by_cases h1 : k1 = w
  · rw [if_pos h1] at h
    injection h with h2
    exact Or.inl ⟨h1.symm, h2.symm⟩
  · rw [if_neg h1] at h
    by_cases h2 : k2 = w
    · rw [if_pos h2] at h
      injection h with h3
      exact Or.inr ⟨h2.symm, h3.symm⟩
    · rw [if_neg h2] at h
      cases h

/-- A concrete tracker state: variables 1 and 2 in singleton classes. -/
def trkS0 : TrkState :=
  ⟨[(1, 0), (2, 1)], [(0, [1]), (1, [2])], 2, [1, 2], [], [], [], [(1, [])], []⟩

def trkEv1 : EnvEvent := ⟨"change", 5, 2, "add", some 0, some "opt"⟩

/-- `trkS0` after `on_change_input(..., r=1, new_r=2, reason="opt")`. -/
def trkS1 : TrkState :=
  ⟨[(1, 0), (2, 0)], [(0, [1, 2]), (1, [2])], 2, [1, 2], [], [],
   [(2, [⟨"opt", 1, "1", "2"⟩])], [(1, [("opt", 2)]), (2, [])], [trkEv1]⟩

/-- Witness for C6 at the concrete state `trkS0`. -/
theorem C6_equiv_merge_witness :
    on_change_input (fun v => toString v) trkS0 5 "add" 2 0 1 2 "opt" = .ok trkS1 ∧
    (alookup trkS1.equiv 1).isSome = true ∧
    alookup trkS1.equiv 2 = alookup trkS1.equiv 1 ∧
    (1 : Nat) ∈ classOf trkS1 1 ∧ (2 : Nat) ∈ classOf trkS1 1 := by
  have hwf1 : ∀ w c, alookup trkS0.equiv w = some c →
      w ∈ (alookup trkS0.classes c).getD [] := by
    intro w c h
    rcases alookup_pair_elim 1 2 0 1 w c h with ⟨hw, hc⟩ | ⟨hw, hc⟩ <;>
      subst hw <;> subst hc <;> decide
  have hwf2 : ∀ w c, alookup trkS0.equiv w = some c → c < trkS0.nextClassId := by
    intro w c h
    rcases alookup_pair_elim 1 2 0 1 w c h with ⟨hw, hc⟩ | ⟨hw, hc⟩ <;>
      subst hc <;> decide
  have h := C6_equiv_merge_and_prune_monotone (fun v => toString v) trkS0 5 "add" 2 0 1
    2 "opt" trkS1 hwf1 hwf2 rfl
  exact ⟨rfl, h.1.1, h.1.2.1, h.1.2.2.1, h.1.2.2.2.1⟩

/-! C7 — idempotence of reason-chain appends. -/

/-- How many entries of a reason chain carry this `(reason, old_r)`
pair. -/
def countMatching (l : List ReasonTup) (reason : String) (r : Nat) : Nat :=
  (l.filter (fun t => t.reason == reason && t.oldR == r)).length

theorem filter_eq_nil_of_any_false (p : ReasonTup → Bool) (l : List ReasonTup)
    (h : l.any p = false) : l.filter p = [] := by
  induction l with
  | nil => rfl
  | cons a t ih =>
    rw [List.any_cons, Bool.or_eq_false_iff] at h
    rw [List.filter_cons, if_neg (by rw [h.1]; exact Bool.false_ne_true)]
    exact ih h.2

theorem on_change_reasons_post (render : Nat → String) (s : TrkState)
    (r new_r : Nat) (reason : String) (s2 : TrkState)
    (h : on_change_reasons render s r new_r reason = .ok s2) :
    (∃ tups, alookup s2.reasons new_r = some tups ∧
      tups.any (fun t => t.reason == reason && t.oldR == r) = true) ∧
    (alookup s2.replaced_by new_r).isSome = true := by
  unfold on_change_reasons at h
  by_cases hany : ((alookup (asetdefault s.reasons new_r []) new_r).getD []).any
      (fun t => t.reason == reason && t.oldR == r) = true
  · rw [if_pos hany] at h
    injection h with h1
    subst h1
    constructor
    · refine ⟨(alookup s.reasons new_r).getD [], ?_, ?_⟩
      · show alookup (asetdefault s.reasons new_r []) new_r = _
        rw [alookup_asetdefault_self]
      · have heq : (alookup (asetdefault s.reasons new_r []) new_r).getD [] =
            (alookup s.reasons new_r).getD [] := by
          rw [alookup_asetdefault_self, Option.getD_some]
        rw [← heq]
        exact hany
    · show (alookup (asetdefault s.replaced_by new_r []) new_r).isSome = true
      rw [alookup_asetdefault_self]
      rfl
  · rw [if_neg hany] at h
    cases hl : alookup (asetdefault s.replaced_by new_r []) r with
    | none => rw [hl] at h; cases h
    | some l =>
      rw [hl] at h
      injection h with h1
      subst h1
      constructor
      · refine ⟨((alookup (asetdefault s.reasons new_r []) new_r).getD []) ++
          [⟨reason, r, render r, render new_r⟩], ?_, ?_⟩
        · show alookup (aset (asetdefault s.reasons new_r []) new_r
            (((alookup (asetdefault s.reasons new_r []) new_r).getD []) ++
              [⟨reason, r, render r, render new_r⟩])) new_r = _
          rw [alookup_aset, if_pos rfl]
        · simp
      · show (alookup (aset (asetdefault s.replaced_by new_r []) r
          (l ++ [(reason, new_r)])) new_r).isSome = true
        rw [alookup_aset]
        by_cases hrn : r = new_r
        · rw [if_pos hrn]
          rfl
        · rw [if_neg hrn, alookup_asetdefault_self]
          rfl

theorem on_change_reasons_noappend (render : Nat → String) (s : TrkState)
    (r new_r : Nat) (reason : String) (tups : List ReasonTup)
    (ht : alookup s.reasons new_r = some tups)
    (hany : tups.any (fun t => t.reason == reason && t.oldR == r) = true)
    (hrb : (alookup s.replaced_by new_r).isSome = true) :
    on_change_reasons render s r new_r reason = .ok s := by
  unfold on_change_reasons
  rw [asetdefault_of_isSome s.reasons new_r [] (by rw [ht]; rfl),
      asetdefault_of_isSome s.replaced_by new_r [] hrb, ht]
  rw [if_pos (show ((some tups).getD []).any
      (fun t => t.reason == reason && t.oldR == r) = true from hany)]

theorem on_change_reasons_count (render : Nat → String) (s : TrkState)
    (r new_r : Nat) (reason : String) (s2 : TrkState)
    (h : on_change_reasons render s r new_r reason = .ok s2)
    (hc : countMatching ((alookup s.reasons new_r).getD []) reason r ≤ 1) :
    countMatching ((alookup s2.reasons new_r).getD []) reason r ≤ 1 := by
  unfold on_change_reasons at h
  by_cases hany : ((alookup (asetdefault s.reasons new_r []) new_r).getD []).any
      (fun t => t.reason == reason && t.oldR == r) = true
  · rw [if_pos hany] at h
    injection h with h1
    subst h1
    have heq : alookup (asetdefault s.reasons new_r []) new_r =
        some ((alookup s.reasons new_r).getD []) := alookup_asetdefault_self _ _ _
    show countMatching ((alookup (asetdefault s.reasons new_r []) new_r).getD [])
      reason r ≤ 1
    rw [heq]
    exact hc
  · rw [if_neg hany] at h
    cases hl : alookup (asetdefault s.replaced_by new_r []) r with
    | none => rw [hl] at h; cases h
    | some l =>
      rw [hl] at h
      injection h with h1
      subst h1
      have heq : alookup (asetdefault s.reasons new_r []) new_r =
          some ((alookup s.reasons new_r).getD []) := alookup_asetdefault_self _ _ _
      show countMatching ((alookup (aset (asetdefault s.reasons new_r []) new_r
        (((alookup (asetdefault s.reasons new_r []) new_r).getD []) ++
          [⟨reason, r, render r, render new_r⟩])) new_r).getD []) reason r ≤ 1
      rw [alookup_aset, if_pos rfl, Option.getD_some]
      unfold countMatching
      rw [List.filter_append]
      rw [filter_eq_nil_of_any_false _ _ (Bool.eq_false_iff.mpr hany)]
      simp

/-- C7: a second change-input event with the same `reason` and the same
replaced variable `old_r = r` leaves `new_r`'s reason chain and `r`'s
replaced-by chain unchanged; and one change-input event preserves the
invariant that each `(reason, old_r)` pair occurs at most once in
`new_r`'s reason chain. -/
theorem C7_reason_append_idempotent (render render' : Nat → String) (s s1 : TrkState)
    (n1 n2 : Nat) (op1 op2 : String) (k1 k2 i1 i2 r new_r : Nat) (reason : String)
    (h1 : on_change_input render s n1 op1 k1 i1 r new_r reason = .ok s1) :
    (∃ s2, on_change_input render' s1 n2 op2 k2 i2 r new_r reason = .ok s2 ∧
      alookup s2.reasons new_r = alookup s1.reasons new_r ∧
      alookup s2.replaced_by r = alookup s1.replaced_by r) ∧
    (countMatching ((alookup s.reasons new_r).getD []) reason r ≤ 1 →
      countMatching ((alookup s1.reasons new_r).getD []) reason r ≤ 1) := by
  obtain ⟨sB, hr, hs1⟩ := on_change_input_ok_elim render s n1 op1 k1 i1 r new_r reason
    s1 h1
  have hch := on_change_equiv_chains sB r new_r
  have hreasons1 : s1.reasons = sB.reasons := by rw [hs1]; exact hch.1
  have hreplaced1 : s1.replaced_by = sB.replaced_by := by rw [hs1]; exact hch.2
  obtain ⟨⟨tups, ht, hany⟩, hrb⟩ := on_change_reasons_post render _ r new_r reason sB hr
  constructor
  · have ht1 : alookup s1.reasons new_r = some tups := by rw [hreasons1]; exact ht
    have hrb1 : (alookup s1.replaced_by new_r).isSome = true := by
      rw [hreplaced1]; exact hrb
    have hnoapp := on_change_reasons_noappend render'
      { s1 with event_list := s1.event_list ++
        [(⟨"change", n2, k2, op2, some i2, some reason⟩ : EnvEvent)] }
      r new_r reason tups ht1 hany hrb1
    have hsecond : on_change_input render' s1 n2 op2 k2 i2 r new_r reason =
        .ok (on_change_equiv
          { s1 with event_list := s1.event_list ++
            [(⟨"change", n2, k2, op2, some i2, some reason⟩ : EnvEvent)] } r new_r) := by
      unfold on_change_input
      rw [hnoapp]
    have hch2 := on_change_equiv_chains
      { s1 with event_list := s1.event_list ++
        [(⟨"change", n2, k2, op2, some i2, some reason⟩ : EnvEvent)] } r new_r
    refine ⟨_, hsecond, ?_, ?_⟩
    · rw [hch2.1]
    · rw [hch2.2]
  · intro hc
    rw [hreasons1]
    exact on_change_reasons_count render _ r new_r reason sB hr hc

def trkEv2 : EnvEvent := ⟨"change", 6, 2, "mul", some 1, some "opt"⟩

/-- `trkS1` after a second, idempotent change event: only the event
list grows. -/
def trkS2 : TrkState :=
  ⟨[(1, 0), (2, 0)], [(0, [1, 2]), (1, [2])], 2, [1, 2], [], [],
   [(2, [⟨"opt", 1, "1", "2"⟩])], [(1, [("opt", 2)]), (2, [])], [trkEv1, trkEv2]⟩

/-- Witness for C7 at the concrete states `trkS0`, `trkS1`. -/
theorem C7_reason_append_idempotent_witness :
    on_change_input (fun v => toString v) trkS1 6 "mul" 2 1 1 2 "opt" = .ok trkS2 ∧
    alookup trkS2.reasons 2 = alookup trkS1.reasons 2 ∧
    alookup trkS2.replaced_by 1 = alookup trkS1.replaced_by 1 := by
  obtain ⟨⟨s2, hok, ha, hb⟩, _⟩ := C7_reason_append_idempotent (fun v => toString v)
    (fun v => toString v) trkS0 trkS1 5 6 "add" "mul" 2 2 0 1 1 2 "opt" rfl
  have he : s2 = trkS2 := by
    have h2 : Except.ok (ε := TrkErr) s2 = .ok trkS2 := by
      rw [← hok]
      rfl
    exact Except.ok.inj h2
  subst he
  exact ⟨hok, ha, hb⟩

/-! ### C8 — `_check_viewmap` (lines 287-346) with `_is_used_in_graph`
(lines 353-360)

A runtime value (`ValW`) carries its Python identity (`vid`), the
identity of its underlying buffer (`buf`, two values may share memory
exactly when they are dense arrays over the same buffer), whether it is
a dense array (`isNd`, standing for both `type(x) == numpy.ndarray` and
`hasattr(x, '__array_interface__')`), and its `OWNDATA` flag. -/

/-- One client entry of a variable: the `('output', 1)` pseudo-client or
an `(apply-node, input-index)` pair. -/
inductive ClientW
  | output (k : Nat)
  | apply (nid idx : Nat)
deriving DecidableEq

/-- A graph variable as the view-map check sees it. -/
structure VarW where
  vid : Nat
  clients : List ClientW
deriving DecidableEq

/-- A runtime value held in a storage cell. -/
structure ValW where
  vid : Nat
  buf : Nat
  isNd : Bool
  ownData : Bool
deriving DecidableEq

/-- An `Apply` node as the view-map check sees it. -/
structure NodeW where
  nid : Nat
  inputs : List VarW
  outputs : List VarW
  view_map : List (Nat × List Nat)
  destroy_map : List (Nat × List Nat)
deriving DecidableEq

/-- The payload of a raised `BadViewMap`. -/
structure BadViewMapE where
  nid : Nat
  output_idx : Nat
  out_storage : ValW
  in_alias_idx : Option (List Nat)
  out_alias_idx : Option Nat
deriving DecidableEq

/-- `_may_share_memory`: both values expose an array interface and
share a buffer. -/
def may_share_memory (a b : ValW) : Bool :=
  a.isNd && b.isNd && (a.buf == b.buf)

/-- `_is_function_output`: `node.clients == [('output', 1)]`. -/
def is_function_output (v : VarW) : Bool :=
  decide (v.clients = [ClientW.output 1])

/-- `_is_used_in_graph`. -/
def is_used_in_graph (v : VarW) : Bool :=
  !(is_function_output v || decide (v.clients = []))

/-- The loop over `enumerate(node.inputs)` building `good_alias` and
`bad_alias` (both keyed by `id(inode)`): every aliasing input goes to
`bad_alias`, then moves to `good_alias` if `[ii]` equals the view-map
or destroy-map entry for this output. -/
def aliasScan (storage : VarW → ValW) (outstorage : ValW) (vm dm : Option (List Nat)) :
    List (Nat × VarW) → List (Nat × Nat) → List (Nat × Nat) →
    List (Nat × Nat) × List (Nat × Nat)
  | [], good, bad => (good, bad)
  | (ii, inode) :: rest, good, bad =>
    if may_share_memory outstorage (storage inode) then
      if decide (vm = some [ii]) || decide (dm = some [ii]) then
        aliasScan storage outstorage vm dm rest
          (aset good inode.vid ii) (apop (aset bad inode.vid ii) inode.vid)
      else aliasScan storage outstorage vm dm rest good (aset bad inode.vid ii)
    else aliasScan storage outstorage vm dm rest good bad

/-- `for key, val in good_alias.iteritems(): bad_alias.pop(key, None)`. -/
def apopAll (bad good : List (Nat × Nat)) : List (Nat × Nat) :=
  good.foldl (fun b kv => apop b kv.1) bad

/-- `danger_flag`: the output's storage is one of the input storages by
identity, or it is an array that does not own its data. -/
def viewmap_danger (node : NodeW) (storage : VarW → ValW) (onode : VarW) : Bool :=
  (node.inputs.map (fun i => (storage i).vid)).contains (storage onode).vid ||
    ((storage onode).isNd && !(storage onode).ownData)

/-- The `(good_alias, bad_alias)` dictionaries after the danger block
(empty when the danger flag is down). -/
def viewmap_good_bad (node : NodeW) (storage : VarW → ValW) (oi : Nat) (onode : VarW) :
    List (Nat × Nat) × List (Nat × Nat) :=
  if viewmap_danger node storage onode then
    ((aliasScan storage (storage onode) (alookup node.view_map oi)
        (alookup node.destroy_map oi) node.inputs.enum [] []).1,
     apopAll (aliasScan storage (storage onode) (alookup node.view_map oi)
        (alookup node.destroy_map oi) node.inputs.enum [] []).2
       (aliasScan storage (storage onode) (alookup node.view_map oi)
        (alookup node.destroy_map oi) node.inputs.enum [] []).1)
  else ([], [])

/-- `for other_oi, other_onode in enumerate(node.outputs)`: the
output-to-output aliasing check, only between outputs that are used in
the graph. -/
def outOutScan (node : NodeW) (storage : VarW → ValW) (oi : Nat) (outstorage : ValW) :
    List (Nat × VarW) → Except BadViewMapE Unit
  | [] => .ok ()
  | (other_oi, other) :: rest =>
    if other_oi = oi then outOutScan node storage oi outstorage rest
    else if is_used_in_graph other && may_share_memory outstorage (storage other) then
      .error ⟨node.nid, oi, outstorage, none, some other_oi⟩
    else outOutScan node storage oi outstorage rest

/-- The body of `_check_viewmap` for one output: raise on undeclared
input aliasing (`danger` branch), otherwise check output-output
aliasing when no declared alias was found and the output is used. -/
def check_viewmap_output (node : NodeW) (storage : VarW → ValW) (oi : Nat)
    (onode : VarW) : Except BadViewMapE Unit :=
  if viewmap_danger node storage onode &&
      !(viewmap_good_bad node storage oi onode).2.isEmpty then
    .error ⟨node.nid, oi, storage onode,
      some ((viewmap_good_bad node storage oi onode).2.map Prod.snd), none⟩
  else if (viewmap_good_bad node storage oi onode).1.isEmpty && is_used_in_graph onode then
    outOutScan node storage oi (storage onode) node.outputs.enum
  else .ok ()

def check_viewmap_go (node : NodeW) (storage : VarW → ValW) :
    List (Nat × VarW) → Except BadViewMapE Unit
  | [] => .ok ()
  | (oi, onode) :: rest =>
    match check_viewmap_output node storage oi onode with
    | .ok _ => check_viewmap_go node storage rest
    | .error e => .error e

/-- `_check_viewmap(node, storage_map)`. -/
def check_viewmap (node : NodeW) (storage : VarW → ValW) : Except BadViewMapE Unit :=
  check_viewmap_go node storage node.outputs.enum

/-- The aliased input variable of the counterexample node. -/
def cexVarX : VarW := ⟨10, [ClientW.apply 0 0]⟩

/-- The client-less output variable of the counterexample node. -/
def cexVarO : VarW := ⟨11, []⟩

def cexNode : NodeW := ⟨0, [cexVarX], [cexVarO], [], []⟩

/-- Storage in which the output is an array view over the input's
buffer (buffer 5) without owning its data. -/
def cexStorage : VarW → ValW :=
  fun v => if v.vid = 10 then ⟨100, 5, true, true⟩ else ⟨101, 5, true, false⟩

/-- Counterexample to C8 as stated: the single output of `cexNode` has
no clients and is not a designated graph output, yet `_check_viewmap`
raises `BadViewMap` on its account (input-alias form), because the
input-alias branch is not guarded by `_is_used_in_graph`. -/
theorem C8_viewmap_unused_cex :
    (cexVarO.clients = [] ∧ is_function_output cexVarO = false) ∧
    check_viewmap cexNode cexStorage =
      .error ⟨0, 0, ⟨101, 5, true, false⟩, some [0], none⟩ := by
  exact ⟨⟨rfl, rfl⟩, rfl⟩

theorem mem_enumFrom_get {α : Type} (l : List α) :
    ∀ (n i : Nat) (x : α), (i, x) ∈ l.enumFrom n → n ≤ i ∧ l.get? (i - n) = some x := by
  induction l with
  | nil => intro n i x h; cases h
  | cons a t ih =>
    intro n i x h
    rw [List.enumFrom_cons] at h
    rcases List.mem_cons.mp h with h1 | h1
    · rw [Prod.mk.injEq] at h1
      obtain ⟨h2, h3⟩ := h1
      subst h2
      subst h3
      exact ⟨by omega, by simp⟩
    · obtain ⟨h2, h3⟩ := ih (n + 1) i x h1
      refine ⟨by omega, ?_⟩
      rw [show i - n = (i - (n + 1)) + 1 by omega]
      simpa using h3

theorem mem_enum_get {α : Type} (l : List α) (i : Nat) (x : α)
    (h : (i, x) ∈ l.enum) : l.get? i = some x := by
  have h1 := mem_enumFrom_get l 0 i x h
  simpa using h1.2

theorem outOutScan_error_elim (node : NodeW) (storage : VarW → ValW) (oi : Nat)
    (outstorage : ValW) (l : List (Nat × VarW)) (e : BadViewMapE)
    (h : outOutScan node storage oi outstorage l = .error e) :
    ∃ k other, (k, other) ∈ l ∧ is_used_in_graph other = true ∧
      e = ⟨node.nid, oi, outstorage, none, some k⟩ := by
  induction l with
  | nil => cases h
  | cons p rest ih =>
    obtain ⟨other_oi, other⟩ := p
    by_cases h1 : other_oi = oi
    · rw [show outOutScan node storage oi outstorage ((other_oi, other) :: rest) =
        outOutScan node storage oi outstorage rest by
          simp only [outOutScan]; rw [if_pos h1]] at h
      obtain ⟨k, o1, hm, hu, he⟩ := ih h
      exact ⟨k, o1, by simp [hm], hu, he⟩
    · by_cases h2 : (is_used_in_graph other && may_share_memory outstorage
          (storage other)) = true
      · rw [show outOutScan node storage oi outstorage ((other_oi, other) :: rest) =
          .error ⟨node.nid, oi, outstorage, none, some other_oi⟩ by
            simp only [outOutScan]; rw [if_neg h1, if_pos h2]] at h
        injection h with h3
        refine ⟨other_oi, other, by simp, ?_, h3.symm⟩
        have := Bool.and_eq_true_iff.mp h2
        exact this.1
      · rw [show outOutScan node storage oi outstorage ((other_oi, other) :: rest) =
          outOutScan node storage oi outstorage rest by
            simp only [outOutScan]; rw [if_neg h1, if_neg h2]] at h
        obtain ⟨k, o1, hm, hu, he⟩ := ih h
        exact ⟨k, o1, by simp [hm], hu, he⟩

theorem check_viewmap_output_out_alias (node : NodeW) (storage : VarW → ValW)
    (oi : Nat) (onode : VarW) (e : BadViewMapE) (k : Nat)
    (h : check_viewmap_output node storage oi onode = .error e)
    (hout : e.out_alias_idx = some k) :
    is_used_in_graph onode = true ∧ e.output_idx = oi ∧
      ∃ other, (k, other) ∈ node.outputs.enum ∧ is_used_in_graph other = true := by
  unfold check_viewmap_output at h
  by_cases h1 : (viewmap_danger node storage onode &&
      !(viewmap_good_bad node storage oi onode).2.isEmpty) = true
  · rw [if_pos h1] at h
    injection h with h2
    rw [← h2] at hout
    cases hout
  · rw [if_neg h1] at h
    by_cases h2 : ((viewmap_good_bad node storage oi onode).1.isEmpty &&
        is_used_in_graph onode) = true
    · rw [if_pos h2] at h
      obtain ⟨k1, other, hm, hu, he⟩ := outOutScan_error_elim node storage oi
        (storage onode) node.outputs.enum e h
      have hk : k = k1 := by
        rw [he] at hout
        exact (Option.some.inj hout).symm
      subst hk
      refine ⟨(Bool.and_eq_true_iff.mp h2).2, ?_, other, hm, hu⟩
      rw [he]
    · rw [if_neg h2] at h
      cases h

theorem check_viewmap_go_error_elim (node : NodeW) (storage : VarW → ValW)
    (l : List (Nat × VarW)) (e : BadViewMapE)
    (h : check_viewmap_go node storage l = .error e) :
    ∃ oi onode, (oi, onode) ∈ l ∧
      check_viewmap_output node storage oi onode = .error e := by
  induction l with
  | nil => cases h
  | cons p rest ih =>
    obtain ⟨oi, onode⟩ := p
    cases hc : check_viewmap_output node storage oi onode with
    | ok u =>
      rw [show check_viewmap_go node storage ((oi, onode) :: rest) =
        check_viewmap_go node storage rest by
          simp only [check_viewmap_go]; rw [hc]] at h
      obtain ⟨oi1, onode1, hm, he⟩ := ih h
      exact ⟨oi1, onode1, by simp [hm], he⟩
    | error e1 =>
      rw [show check_viewmap_go node storage ((oi, onode) :: rest) = .error e1 by
        simp only [check_viewmap_go]; rw [hc]] at h
      injection h with h1
      subst h1
      exact ⟨oi, onode, by simp, hc⟩

theorem unused_of_no_clients (v : VarW) (h : v.clients = []) :
    is_used_in_graph v = false := by
  simp [is_used_in_graph, is_function_output, h]

/-- C8 (amended): an output variable with no clients (hence neither a
consumer nor the designated-output pseudo-client) never participates in
the *output-output alias* form of the view-map check — any raised
`BadViewMap` with an `out_alias_idx` concerns two other, used outputs —
but the *input-alias* form is still applied to such an output and can
raise `BadViewMap` on its account (see the counterexample). -/
theorem C8_viewmap_unused_output_spec (node : NodeW) (storage : VarW → ValW)
    (oi : Nat) (onode : VarW) (e : BadViewMapE) (k : Nat)
    (hoi : node.outputs.get? oi = some onode)
    (hnc : onode.clients = [])
    (herr : check_viewmap node storage = .error e)
    (hout : e.out_alias_idx = some k) :
    e.output_idx ≠ oi ∧ k ≠ oi := by
  obtain ⟨oi1, onode1, hm1, he1⟩ := check_viewmap_go_error_elim node storage
    node.outputs.enum e herr
  obtain ⟨hu1, hidx, other, hm2, hu2⟩ := check_viewmap_output_out_alias node storage
    oi1 onode1 e k he1 hout
  have hunused := unused_of_no_clients onode hnc
  constructor
  · intro hcontra
    rw [hidx] at hcontra
    subst hcontra
    have := mem_enum_get node.outputs oi1 onode1 hm1
    rw [hoi] at this
    injection this with h3
    rw [h3] at hunused
    rw [hunused] at hu1
    cases hu1
  · intro hcontra
    subst hcontra
    have := mem_enum_get node.outputs k other hm2
    rw [hoi] at this
    injection this with h3
    rw [h3] at hunused
    rw [hunused] at hu2
    cases hu2

/-- The three outputs of the witness node: two used outputs sharing a
buffer, one client-less output. -/
def witVarA : VarW := ⟨20, [ClientW.apply 1 0]⟩

def witVarB : VarW := ⟨21, [ClientW.apply 1 1]⟩

def witVarC : VarW := ⟨22, []⟩

def witNode : NodeW := ⟨3, [], [witVarA, witVarB, witVarC], [], []⟩

def witStorage : VarW → ValW :=
  fun v => if v.vid = 20 then ⟨100, 9, true, true⟩
    else if v.vid = 21 then ⟨101, 9, true, true⟩
    else ⟨102, 50, true, true⟩

/-- Witness for the amended C8: a raised output-output `BadViewMap`
names outputs 0 and 1, never the client-less output 2. -/
theorem C8_viewmap_unused_output_spec_witness :
    check_viewmap witNode witStorage =
      .error ⟨3, 0, ⟨100, 9, true, true⟩, none, some 1⟩ ∧
    (BadViewMapE.mk 3 0 ⟨100, 9, true, true⟩ none (some 1)).output_idx ≠ 2 ∧
    (1 : Nat) ≠ 2 := by
  refine ⟨rfl, ?_, ?_⟩
  · exact (C8_viewmap_unused_output_spec witNode witStorage 2 witVarC
      ⟨3, 0, ⟨100, 9, true, true⟩, none, some 1⟩ 1 rfl rfl rfl rfl).1
  · exact (C8_viewmap_unused_output_spec witNode witStorage 2 witVarC
      ⟨3, 0, ⟨100, 9, true, true⟩, none, some 1⟩ 1 rfl rfl rfl rfl).2

/-! ### C9 — the exception hierarchy (lines 30-190), the configuration
check of `DebugMode.__init__` (lines 1191-1192) and the in-place check
of `_optcheck_env` (lines 253-256). -/

/-- The exception classes involved: the module's own classes plus the
Python 2 built-ins they derive from or that the checks raise. -/
inductive ExcClass
  | exception
  | standardError
  | valueError
  | typeError
  | debugModeError
  | badCLinkerOutput
  | badOptimization
  | badDestroyMap
  | badViewMap
  | stochasticOrder
  | floatError
  | invalidValueError
deriving DecidableEq

/-- The `class C(B)` declarations: each module exception derives from
`DebugModeError(Exception)`; `ValueError` and `TypeError` are Python 2
built-ins under `StandardError(Exception)`. -/
def parentOf : ExcClass → Option ExcClass
  | .exception => none
  | .standardError => some .exception
  | .valueError => some .standardError
  | .typeError => some .standardError
  | .debugModeError => some .exception
  | .badCLinkerOutput => some .debugModeError
  | .badOptimization => some .debugModeError
  | .badDestroyMap => some .debugModeError
  | .badViewMap => some .debugModeError
  | .stochasticOrder => some .debugModeError
  | .floatError => some .debugModeError
  | .invalidValueError => some .debugModeError

def derivesFromAux : Nat → ExcClass → ExcClass → Bool
  | 0, _, _ => false
  | fuel + 1, c, base =>
    c == base ||
      (match parentOf c with
       | some p => derivesFromAux fuel p base
       | none => false)

/-- `issubclass(c, base)` over the declared hierarchy (depth at most 3,
fuel 12 is ample). -/
def derivesFrom (c base : ExcClass) : Bool :=
  derivesFromAux 12 c base

/-- `DebugMode.__init__`: `if not (check_c_code or check_py_code):
raise ValueError(...)` — a plain `ValueError`, not a `DebugModeError`. -/
def debugModeInitCheck (check_c_code check_py_code : Bool) : Except ExcClass Unit :=
  if !(check_c_code || check_py_code) then .error .valueError else .ok ()

/-- `_optcheck_env`: when `accept_inplace` is false and some node has a
non-empty `destroy_map`, `raise TypeError("Graph must not contain
inplace operations", node)` — a plain `TypeError`. -/
def optcheckInplaceCheck (accept_inplace : Bool) (nodeHasDestroyMap : List Bool) :
    Except ExcClass Unit :=
  if !accept_inplace then
    (if nodeHasDestroyMap.any id then .error .typeError else .ok ())
  else .ok ()

/-- Counterexample to C9 as stated: disabling both backend checks
raises a `ValueError`, and `ValueError` does not derive from
`DebugModeError`, so this configuration error is *not* an instance of
the common base. -/
theorem C9_error_hierarchy_cex :
    debugModeInitCheck false false = .error .valueError ∧
    derivesFrom .valueError .debugModeError = false := by
  exact ⟨rfl, rfl⟩

/-- C9 (amended): every error kind the module itself defines
(`BadCLinkerOutput`, `BadOptimization`, `BadDestroyMap`, `BadViewMap`,
`StochasticOrder`, `FloatError`, `InvalidValueError`) derives from the
common `DebugModeError` base, but the configuration error raised when
both backend checks are disabled is a plain `ValueError` and the error
raised for an in-place operation in a graph that rejects them is a
plain `TypeError`; neither derives from `DebugModeError` (they only
share Python's `Exception` root with it). -/
theorem C9_error_hierarchy_spec :
    (derivesFrom .badCLinkerOutput .debugModeError = true ∧
     derivesFrom .badOptimization .debugModeError = true ∧
     derivesFrom .badDestroyMap .debugModeError = true ∧
     derivesFrom .badViewMap .debugModeError = true ∧
     derivesFrom .stochasticOrder .debugModeError = true ∧
     derivesFrom .floatError .debugModeError = true ∧
     derivesFrom .invalidValueError .debugModeError = true) ∧
    debugModeInitCheck false false = .error .valueError ∧
    optcheckInplaceCheck false [true] = .error .typeError ∧
    derivesFrom .valueError .debugModeError = false ∧
    derivesFrom .typeError .debugModeError = false ∧
    derivesFrom .valueError .exception = true ∧
    derivesFrom .typeError .exception = true ∧
    derivesFrom .debugModeError .exception = true := by
  refine ⟨⟨rfl, rfl, rfl, rfl, rfl, rfl, rfl⟩, rfl, rfl, rfl, rfl, rfl, rfl, rfl⟩

/-! ### C10 — input initialization of the evaluation function `f`
(lines 801-814 of `_Linker.make_all`)

The storage map is a list of `(variable, cell)` pairs; a graph-input
variable is one with `owner = none`.  Errors carry the `r_vals` built
so far and (at the `fRun` level) the list of node thunks already
executed, so the theorem can state that the failure happens before any
thunk runs and before any node output enters `r_vals`. -/

/-- A variable as the linker sees it: identity, type handle, and the
owner node (`none` for a graph input). -/
structure VarL where
  vid : Nat
  tyId : Nat
  owner : Option Nat
deriving DecidableEq

/-- Exceptions of the initialization loop: `Exception('Missing input',
r)` and `InvalidValueError(r, value)`. -/
inductive LinkErr
  | missingInput (r : VarL)
  | invalidValue (r : VarL) (v : Int)
deriving DecidableEq

/-- Lines 801-809: for every ownerless variable of the storage map,
raise if its cell is empty, validate, move the value into `r_vals` and
clear the cell.  The error also carries the `r_vals` accumulated when
the exception is raised. -/
def init_transfer (isValid : Nat → Int → Bool) :
    List (VarL × Option Int) → List (VarL × Int) →
    Except (LinkErr × List (VarL × Int)) (List (VarL × Int) × List (VarL × Option Int))
  | [], r_vals => .ok (r_vals, [])
  | (r, cell) :: rest, r_vals =>
    match r.owner with
    | none =>
      match cell with
      | none => .error (.missingInput r, r_vals)
      | some v =>
        if isValid r.tyId v then
          match init_transfer isValid rest (r_vals ++ [(r, v)]) with
          | .ok (rv1, st1) => .ok (rv1, (r, none) :: st1)
          | .error e => .error e
        else .error (.invalidValue r v, r_vals)
    | some _ =>
      match init_transfer isValid rest r_vals with
      | .ok (rv1, st1) => .ok (rv1, (r, cell) :: st1)
      | .error e => .error e

/-- The evaluation function `f`: run the initialization transfer, then
hand over to the per-node evaluation loop (`rest`, abstract here); the
`List Nat` accompanying results and errors is the list of nodes whose
thunks have been executed — empty for any initialization failure. -/
def fRun (isValid : Nat → Int → Bool) (storage : List (VarL × Option Int))
    (rest : List (VarL × Int) → List (VarL × Option Int) →
      Except (LinkErr × List (VarL × Int) × List Nat) (List Nat × List (VarL × Int))) :
    Except (LinkErr × List (VarL × Int) × List Nat) (List Nat × List (VarL × Int)) :=
  match init_transfer isValid storage [] with
  | .error (e, rv) => .error (e, rv, [])
  | .ok (rv, st) => rest rv st

theorem init_transfer_missing (isValid : Nat → Int → Bool) :
    ∀ (l : List (VarL × Option Int)) (rv : List (VarL × Int)),
      (∃ p ∈ l, p.1.owner = none ∧ p.2 = none) →
      (∀ p ∈ l, p.1.owner = none → ∀ v, p.2 = some v → isValid p.1.tyId v = true) →
      (∀ q ∈ rv, q.1.owner = none) →
      ∃ r rv1, init_transfer isValid l rv = .error (.missingInput r, rv1) ∧
        r.owner = none ∧ (r, (none : Option Int)) ∈ l ∧
        ∀ q ∈ rv1, q.1.owner = none := by
  intro l
  induction l with
  | nil =>
    intro rv hmiss _ _
    obtain ⟨p, hp, _⟩ := hmiss
    cases hp
  | cons p rest ih =>
    obtain ⟨r, cell⟩ := p
    intro rv hmiss hvalid hrv
    cases ho : r.owner with
    | none =>
      cases hc : cell with
      | none =>
        refine ⟨r, rv, ?_, ho, by simp, hrv⟩
        simp only [init_transfer, ho, hc]
      | some v =>
        have hval : isValid r.tyId v = true := hvalid (r, cell) (by simp) ho v (by rw [hc])
        have hmiss1 : ∃ p ∈ rest, p.1.owner = none ∧ p.2 = none := by
          obtain ⟨p1, hp1, ho1, hc1⟩ := hmiss
          rcases List.mem_cons.mp hp1 with hh | hh
          · rw [hh] at hc1
            simp only at hc1
            rw [hc] at hc1
            cases hc1
          · exact ⟨p1, hh, ho1, hc1⟩
        have hrv1 : ∀ q ∈ rv ++ [(r, v)], q.1.owner = none := by
          intro q hq
          rcases List.mem_append.mp hq with hh | hh
          · exact hrv q hh
          · rw [List.mem_singleton.mp hh]
            exact ho
        obtain ⟨r1, rv1, hres, ho1, hm1, hall1⟩ := ih (rv ++ [(r, v)]) hmiss1
          (fun q hq hoq w hw => hvalid q (by simp [hq]) hoq w hw) hrv1
        refine ⟨r1, rv1, ?_, ho1, by simp [hm1], hall1⟩
        simp only [init_transfer, ho, hc]
        rw [if_pos hval, hres]
    | some w =>
      have hmiss1 : ∃ p ∈ rest, p.1.owner = none ∧ p.2 = none := by
        obtain ⟨p1, hp1, ho1, hc1⟩ := hmiss
        rcases List.mem_cons.mp hp1 with hh | hh
        · rw [hh] at ho1
          simp only at ho1
          rw [ho] at ho1
          cases ho1
        · exact ⟨p1, hh, ho1, hc1⟩
      obtain ⟨r1, rv1, hres, ho1, hm1, hall1⟩ := ih rv hmiss1
        (fun q hq hoq w hw => hvalid q (by simp [hq]) hoq w hw) hrv
      refine ⟨r1, rv1, ?_, ho1, by simp [hm1], hall1⟩
      simp only [init_transfer, ho]
      rw [hres]

/-- C10: if any graph-input variable's storage cell holds no value when
evaluation begins (and the populated input cells hold valid values),
the evaluation function raises `Exception('Missing input', r)` naming
such an input, during initialization: no node thunk has been executed
(the executed list is empty) and `r_vals` holds only graph inputs —
no node output has been entered — whatever the rest of the evaluation
would do. -/
theorem C10_missing_input_spec (isValid : Nat → Int → Bool)
    (storage : List (VarL × Option Int))
    (hmiss : ∃ p ∈ storage, p.1.owner = none ∧ p.2 = none)
    (hvalid : ∀ p ∈ storage, p.1.owner = none → ∀ v, p.2 = some v →
      isValid p.1.tyId v = true) :
    ∀ rest, ∃ r rv1, fRun isValid storage rest = .error (.missingInput r, rv1, []) ∧
      r.owner = none ∧ (r, (none : Option Int)) ∈ storage ∧
      ∀ q ∈ rv1, q.1.owner = none := by
  intro rest
  obtain ⟨r, rv1, hres, ho, hm, hall⟩ := init_transfer_missing isValid storage []
    hmiss hvalid (fun q hq => absurd hq (List.not_mem_nil q))
  refine ⟨r, rv1, ?_, ho, hm, hall⟩
  unfold fRun
  rw [hres]

/-- Witness for C10: a single graph input with an empty cell. -/
theorem C10_missing_input_spec_witness :
    fRun (fun _ _ => true) [(⟨0, 0, none⟩, none)] (fun rv _ => .ok ([], rv)) =
      .error (.missingInput ⟨0, 0, none⟩, [], []) ∧
    (VarL.mk 0 0 none).owner = none := by
  have h := C10_missing_input_spec (fun _ _ => true) [(⟨0, 0, none⟩, none)]
    ⟨(⟨0, 0, none⟩, none), by simp, rfl, rfl⟩
    (by
      intro p hp hop v hv
      rw [List.mem_singleton.mp hp] at hv)
    (fun rv _ => .ok ([], rv))
  exact ⟨rfl, rfl⟩
